import Mathlib

/-
Verification of the agent-task orchestration core of genius-online-navigator:
the workflow graph engine (src/backend/src/agents/workflows/graph_engine.py and
engine.py), the model router (src/backend/src/llm/model_router.py), the tool
registry (src/backend/src/agents/tools/__init__.py) and the agent execution
core (src/backend/src/agents/core/base_agent.py).

The Python code is shallowly embedded: dictionaries become association lists
(which preserve the insertion order that Python dicts guarantee), Python sets
become duplicate-free lists (iteration order of a Python set is unspecified,
so a fixed list order is a legitimate determinization), float arithmetic
becomes exact rational arithmetic (every numeric claim below is separated from
its threshold by far more than double rounding error), and a function that can
raise returns Except String.  Loops whose termination is a consequence of
program invariants (the BFS/DFS of validate, the wave loop of
execute_workflow) are given an explicit fuel that provably or evidently
exceeds the number of iterations the Python loop can perform.
-/

set_option maxRecDepth 4096

/-- Model of a Python runtime value as it flows through the orchestration
core: None, booleans, numbers (modelled as rationals), strings, lists, dicts,
and objects carrying named attributes (used by getattr in get_next_nodes). -/
inductive Val where
  | vnone : Val
  | vbool : Bool → Val
  | vnum : ℚ → Val
  | vstr : String → Val
  | vlist : List Val → Val
  | vdict : List (String × Val) → Val
  | vobj : List (String × Val) → Val

/-- Python truthiness of a value, as used by if-tests on .get results. -/
def pyTruthy : Val → Bool
  | Val.vnone => false
  | Val.vbool b => b
  | Val.vnum q => decide (q ≠ 0)
  | Val.vstr s => decide (s ≠ "")
  | Val.vlist l => ! l.isEmpty
  | Val.vdict l => ! l.isEmpty
  | Val.vobj _ => true

/-- Bool test for the Python comparison result is None. -/
def Val.isVNone : Val → Bool
  | Val.vnone => true
  | _ => false

/-- Set-style insertion into a duplicate-free list, modelling Python set.add;
the element is placed at the front when absent. -/
def pyInsert [DecidableEq α] (a : α) (l : List α) : List α :=
  if a ∈ l then l else a :: l

theorem mem_pyInsert [DecidableEq α] (a b : α) (l : List α) :
    b ∈ pyInsert a l ↔ b = a ∨ b ∈ l := by
  unfold pyInsert
  split
  · constructor
    · exact fun h => Or.inr h
    · rintro (rfl | h) <;> assumption
  · simp [List.mem_cons]

theorem subset_pyInsert [DecidableEq α] (a : α) (l : List α) :
    l ⊆ pyInsert a l := by
  intro x hx
  exact (mem_pyInsert a x l).mpr (Or.inr hx)

theorem self_mem_pyInsert [DecidableEq α] (a : α) (l : List α) :
    a ∈ pyInsert a l := (mem_pyInsert a a l).mpr (Or.inl rfl)

/-- Lookup in an association list, modelling Python dict access and the
`key in dict` test. -/
def plookup [DecidableEq κ] : List (κ × β) → κ → Option β
  | [], _ => none
  | (k1, v) :: rest, k => if k1 = k then some v else plookup rest k

/-- Python dict assignment d[k] = v: replaces in place when the key exists
(keeping its position), appends at the end otherwise. -/
def dictSet [DecidableEq κ] : List (κ × β) → κ → β → List (κ × β)
  | [], k, v => [(k, v)]
  | (k1, v1) :: rest, k, v =>
    if k1 = k then (k, v) :: rest else (k1, v1) :: dictSet rest k v

/-- Python dict deletion del d[k] (removes the first binding of the key). -/
def dictDel [DecidableEq κ] : List (κ × β) → κ → List (κ × β)
  | [], _ => []
  | (k1, v1) :: rest, k =>
    if k1 = k then rest else (k1, v1) :: dictDel rest k

theorem plookup_dictSet_self [DecidableEq κ] (l : List (κ × β)) (k : κ) (v : β) :
    plookup (dictSet l k v) k = some v := by
  induction l with
  | nil => simp [dictSet, plookup]
  | cons p rest ih =>
    obtain ⟨k1, v1⟩ := p
    by_cases h : k1 = k
    · simp [dictSet, h, plookup]
    · simp [dictSet, h, plookup, ih]

mutual

/-- Approximation of json.dumps as used only to measure context size in
_extract_task_features; string escaping and Python number rendering are not
reproduced (they influence only the byte-count heuristic). -/
def pyJsonDumps : Val → String
  | Val.vnone => "null"
  | Val.vbool true => "true"
  | Val.vbool false => "false"
  | Val.vnum q => toString q
  | Val.vstr s => "\"" ++ s ++ "\""
  | Val.vlist l => "[" ++ pyJsonDumpsList l ++ "]"
  | Val.vdict l => "\x7b" ++ pyJsonDumpsEntries l ++ "\x7d"
  | Val.vobj _ => "<unserializable>"

def pyJsonDumpsList : List Val → String
  | [] => ""
  | [v] => pyJsonDumps v
  | v :: rest => pyJsonDumps v ++ ", " ++ pyJsonDumpsList rest

def pyJsonDumpsEntries : List (String × Val) → String
  | [] => ""
  | [(k, v)] => "\"" ++ k ++ "\": " ++ pyJsonDumps v
  | (k, v) :: rest => "\"" ++ k ++ "\": " ++ pyJsonDumps v ++ ", " ++ pyJsonDumpsEntries rest

end

/-- NodeType enum of graph_engine.py. -/
inductive NodeType where
  | AGENT | TOOL | CONDITIONAL | MERGE | MAP | REDUCE | START | END
deriving DecidableEq

/-- EdgeCondition enum of graph_engine.py. -/
inductive EdgeCondition where
  | ALWAYS | SUCCESS | FAILURE | CUSTOM
deriving DecidableEq

/-- WorkflowNode dataclass of graph_engine.py. -/
structure WorkflowNode where
  id : String
  type : NodeType
  name : String
  config : List (String × Val) := []
  metadata : List (String × Val) := []

/-- WorkflowEdge dataclass of graph_engine.py; condition_func holds the
(non-serializable) CUSTOM predicate. -/
structure WorkflowEdge where
  source_node : String
  target_node : String
  condition : EdgeCondition := EdgeCondition.ALWAYS
  condition_func : Option (Val → Bool) := none
  metadata : List (String × Val) := []

/-- WorkflowGraph of graph_engine.py: name, node map, edge list, optional
start node id, set of end node ids. -/
structure WorkflowGraph where
  name : String
  description : String := ""
  nodes : List (String × WorkflowNode) := []
  edges : List WorkflowEdge := []
  start_node : Option String := none
  end_nodes : List String := []

/-- Node-id keys of the node map, in insertion order. -/
def WorkflowGraph.keys (g : WorkflowGraph) : List String := g.nodes.map Prod.fst

/-- WorkflowGraph.add_node: stores the node under its id, records a START
node as the start node (raising when one is already set), records END nodes
in the end set. -/
def WorkflowGraph.add_node (g : WorkflowGraph) (node : WorkflowNode) :
    Except String WorkflowGraph :=
  let g1 := { g with nodes := dictSet g.nodes node.id node }
  if node.type = NodeType.START then
    match g.start_node with
    | some _ => Except.error "Workflow can only have one start node"
    | none =>
      let g2 := { g1 with start_node := some node.id }
      Except.ok (if node.type = NodeType.END then
        { g2 with end_nodes := pyInsert node.id g2.end_nodes } else g2)
  else
    Except.ok (if node.type = NodeType.END then
      { g1 with end_nodes := pyInsert node.id g1.end_nodes } else g1)

/-- WorkflowGraph.add_edge: rejects an edge whose endpoints are not node ids,
appends it otherwise. -/
def WorkflowGraph.add_edge (g : WorkflowGraph) (edge : WorkflowEdge) :
    Except String WorkflowGraph :=
  if edge.source_node ∈ g.keys then
    if edge.target_node ∈ g.keys then
      Except.ok { g with edges := g.edges ++ [edge] }
    else
      Except.error ("Target node " ++ edge.target_node ++ " not found in graph")
  else
    Except.error ("Source node " ++ edge.source_node ++ " not found in graph")

/-- Serialized form of a node produced by WorkflowGraph.to_dict. -/
structure NodeDict where
  id : String
  type : NodeType
  name : String
  config : List (String × Val)
  metadata : List (String × Val)

/-- Serialized form of an edge produced by WorkflowGraph.to_dict; the CUSTOM
predicate itself is not serializable, only its presence is recorded. -/
structure EdgeDict where
  source : String
  target : String
  condition : EdgeCondition
  has_condition_func : Bool
  metadata : List (String × Val)

/-- Serialized form of a graph produced by WorkflowGraph.to_dict. -/
structure GraphDict where
  name : String
  description : String
  nodes : List (String × NodeDict)
  edges : List EdgeDict
  start_node : Option String
  end_nodes : List String

/-- WorkflowGraph.to_dict. -/
def WorkflowGraph.to_dict (g : WorkflowGraph) : GraphDict :=
  { name := g.name
    description := g.description
    nodes := g.nodes.map (fun p =>
      (p.1, { id := p.2.id, type := p.2.type, name := p.2.name,
              config := p.2.config, metadata := p.2.metadata }))
    edges := g.edges.map (fun e =>
      { source := e.source_node, target := e.target_node,
        condition := e.condition,
        has_condition_func := e.condition_func.isSome,
        metadata := e.metadata })
    start_node := g.start_node
    end_nodes := g.end_nodes }

/-- WorkflowGraph.from_dict: rebuilds nodes through add_node and edges through
add_edge (any raise propagates), drops every condition_func, then overwrites
start_node and end_nodes with the serialized values. -/
def WorkflowGraph.from_dict (data : GraphDict) : Except String WorkflowGraph := do
  let g0 : WorkflowGraph := { name := data.name, description := data.description }
  let g1 ← data.nodes.foldlM (fun g p =>
    WorkflowGraph.add_node g
      { id := p.2.id, type := p.2.type, name := p.2.name,
        config := p.2.config, metadata := p.2.metadata }) g0
  let g2 ← data.edges.foldlM (fun g ed =>
    WorkflowGraph.add_edge g
      { source_node := ed.source, target_node := ed.target,
        condition := ed.condition, condition_func := none,
        metadata := ed.metadata }) g1
  Except.ok { g2 with start_node := data.start_node, end_nodes := data.end_nodes }

/-- Attribute access getattr(result, "success", default) with Python
truthiness applied by the boolean context in get_next_nodes; only vobj values
carry attributes. -/
def getattrSuccess (v : Val) (dflt : Bool) : Bool :=
  match v with
  | Val.vobj attrs =>
    match plookup attrs "success" with
    | some a => pyTruthy a
    | none => dflt
  | _ => dflt

/-- Edge-condition test of WorkflowGraph.get_next_nodes. -/
def edgeConditionMet (e : WorkflowEdge) (result : Val) : Bool :=
  match e.condition with
  | EdgeCondition.ALWAYS => true
  | EdgeCondition.SUCCESS =>
    ! result.isVNone && getattrSuccess result false
  | EdgeCondition.FAILURE =>
    ! result.isVNone && ! getattrSuccess result true
  | EdgeCondition.CUSTOM =>
    match e.condition_func with
    | some f => f (Val.vdict [("result", result)])
    | none => false

/-- WorkflowGraph.get_next_nodes: targets of the edges out of the node whose
condition holds for the result. -/
def WorkflowGraph.get_next_nodes (g : WorkflowGraph) (node_id : String)
    (result : Val) : List String :=
  g.edges.foldl (fun acc e =>
    if e.source_node = node_id ∧ edgeConditionMet e result then
      acc ++ [e.target_node]
    else acc) []

/-- Worklist reachability pass of WorkflowGraph.validate.  The worklist is
seeded with the optional start node (None participates and matches no edge,
exactly as in Python); each pop moves the element into the reachable set and
enqueues targets of its out-edges that are not yet reachable.  One unit of
fuel is spent per pop; validate supplies more fuel than the number of distinct
elements that can ever be enqueued. -/
def bfsGo (edges : List WorkflowEdge) :
    Nat → List (Option String) → List (Option String) → List (Option String)
  | 0, _, reach => reach
  | _ + 1, [], reach => reach
  | fuel + 1, c :: rest, reach =>
    let reach1 := pyInsert c reach
    let toCheck1 := edges.foldl (fun acc e =>
      if some e.source_node = c ∧ some e.target_node ∉ reach1 then
        pyInsert (some e.target_node) acc
      else acc) rest
    bfsGo edges fuel toCheck1 reach1

/-- Reachable set computed by validate. -/
def WorkflowGraph.bfsReach (g : WorkflowGraph) : List (Option String) :=
  bfsGo g.edges (g.edges.length + 2) [g.start_node] []

/-- The DFS of WorkflowGraph._has_cycle, with the edge scan made explicit:
the first argument list is the remaining edges of the current visit (the
Python for-loop over self.edges), u the node being visited (already inserted
into visited and stack).  The visited set threads through sibling calls (it is
mutated in place in Python); the stack is passed down only (Python removes the
node on exit).  Every step consumes one unit of fuel; validate supplies a
budget that dominates the total number of steps. -/
def dfsGo (edges : List WorkflowEdge) :
    Nat → List WorkflowEdge → String → List String → List String →
    Bool × List String
  | 0, _, _, visited, _ => (false, visited)
  | _ + 1, [], _, visited, _ => (false, visited)
  | fuel + 1, e :: rest, u, visited, stack =>
    if e.source_node = u then
      if e.target_node ∉ visited then
        let r := dfsGo edges fuel edges e.target_node
          (pyInsert e.target_node visited) (pyInsert e.target_node stack)
        if r.1 then r else dfsGo edges fuel rest u r.2 stack
      else if e.target_node ∈ stack then (true, visited)
      else dfsGo edges fuel rest u visited stack
    else dfsGo edges fuel rest u visited stack

/-- Fuel supplied to the cycle DFS; it strictly dominates the step measure
unvisited * (edges + 1) + remaining of every reachable call. -/
def WorkflowGraph.cycleFuel (g : WorkflowGraph) : Nat :=
  (g.nodes.length + 1) * (g.edges.length + 1)

/-- WorkflowGraph._has_cycle called from validate with fresh visited and
stack sets. -/
def WorkflowGraph.hasCycleFrom (g : WorkflowGraph) (k : String) : Bool :=
  (dfsGo g.edges g.cycleFuel g.edges k (pyInsert k []) (pyInsert k [])).1

/-- WorkflowGraph.validate: collects the four error families in order (start
node missing or falsy, no end nodes, unreachable nodes, first detected
cycle). -/
def WorkflowGraph.validate (g : WorkflowGraph) : List String :=
  let errors1 :=
    if (match g.start_node with
        | none => true
        | some s => decide (s = "")) then
      ["Workflow must have a start node"]
    else []
  let errors2 :=
    if g.end_nodes.isEmpty then
      ["Workflow must have at least one end node"]
    else []
  let reach := g.bfsReach
  let unreachable := g.keys.filter (fun k => some k ∉ reach)
  let errors3 :=
    if unreachable.isEmpty then []
    else ["Unreachable nodes: " ++ String.intercalate ", " unreachable]
  let errors4 :=
    match g.keys.find? (fun k => g.hasCycleFrom k) with
    | some k => ["Cycle detected starting from node " ++ k]
    | none => []
  errors1 ++ errors2 ++ errors3 ++ errors4

/-- WorkflowState of graph_engine.py restricted to the fields the executor
reads and writes (timestamps and the random workflow id are dropped: they are
wall-clock and entropy effects with no influence on control flow). -/
structure ExecState where
  current_nodes : List String
  completed_nodes : List String := []
  results : List (String × Val) := []
  context : List (String × Val) := []

/-- Final value returned by GraphWorkflowEngine.execute_workflow (the random
workflow_id field is dropped). -/
structure FinalResult where
  completed : Bool
  results : List (String × Val)
  end_nodes : List (String × Val)

/-- One wave of GraphWorkflowEngine.execute_workflow: processes the snapshot
of the frontier in order, threading the state.  The node handler
(self._process_node) is a parameter; an Except.error models a raised
exception.  On success the result is stored, the node marked completed, and
matching out-edges activate their targets; on an exception the FAILURE edges
out of the node are activated if any exist, otherwise the node is marked
completed with an error payload and nothing is activated.  A missing node id
(KeyError on workflow.nodes, outside the try) aborts the whole execution. -/
def runWave (g : WorkflowGraph)
    (process : WorkflowNode → ExecState → Except String Val) :
    List String → ExecState → Except String ExecState
  | [], st => Except.ok st
  | nid :: rest, st =>
    if nid ∈ st.completed_nodes then
      runWave g process rest st
    else
      match plookup g.nodes nid with
      | none => Except.error ("KeyError: " ++ nid)
      | some node =>
        match process node st with
        | Except.ok result =>
          let nexts := g.get_next_nodes nid result
          runWave g process rest
            { st with
              results := dictSet st.results nid result
              completed_nodes := pyInsert nid st.completed_nodes
              current_nodes := nexts.foldl (fun cur t => pyInsert t cur)
                st.current_nodes }
        | Except.error e =>
          let errTargets := (g.edges.filter (fun ed =>
            ed.source_node = nid ∧ ed.condition = EdgeCondition.FAILURE)).map
            (fun ed => ed.target_node)
          if errTargets.isEmpty then
            runWave g process rest
              { st with
                completed_nodes := pyInsert nid st.completed_nodes
                results := dictSet st.results nid
                  (Val.vdict [("error", Val.vstr e)]) }
          else
            runWave g process rest
              { st with current_nodes :=
                  errTargets.foldl (fun cur t => pyInsert t cur) st.current_nodes }

/-- The while loop of execute_workflow: iterate waves while the frontier is
non-empty and not entirely made of END nodes.  One fuel unit per wave; for a
validated DAG the number of waves is bounded by the number of nodes plus one,
and executeWorkflow supplies a square of that. -/
def execLoop (g : WorkflowGraph)
    (process : WorkflowNode → ExecState → Except String Val) :
    Nat → ExecState → Except String ExecState
  | 0, _ => Except.error "wave budget exhausted"
  | fuel + 1, st =>
    if st.current_nodes ≠ [] ∧ ¬ (∀ n ∈ st.current_nodes, n ∈ g.end_nodes) then
      match runWave g process st.current_nodes { st with current_nodes := [] } with
      | Except.error e => Except.error e
      | Except.ok st1 => execLoop g process fuel st1
    else Except.ok st

/-- GraphWorkflowEngine.execute_workflow: refuses to run when validate is
non-empty, otherwise seeds the frontier with the start node, runs the wave
loop, and assembles the final payload whose end_nodes map keeps exactly the
END node ids that have a stored result. -/
def executeWorkflow
    (process : WorkflowNode → ExecState → Except String Val)
    (g : WorkflowGraph) (initial_context : List (String × Val)) :
    Except String FinalResult :=
  let errors := g.validate
  if errors.isEmpty then
    let st0 : ExecState :=
      { current_nodes := g.start_node.toList, context := initial_context }
    match execLoop g process ((g.nodes.length + 2) * (g.nodes.length + 2)) st0 with
    | Except.error e => Except.error e
    | Except.ok st =>
      Except.ok
        { completed := true
          results := st.results
          end_nodes := g.end_nodes.filterMap (fun nid =>
            (plookup st.results nid).map (fun v => (nid, v))) }
  else
    Except.error ("Invalid workflow: " ++ String.intercalate ", " errors)

/-- Dotted-path extraction of _process_node input mappings: when source_key
is not "output" the path descends through nested dicts, yielding None as soon
as a component is missing or the value is not a dict. -/
def resolvePath : Val → List String → Val
  | v, [] => v
  | Val.vdict entries, k :: rest =>
    match plookup entries k with
    | some v1 => resolvePath v1 rest
    | none => Val.vnone
  | _, _ :: _ => Val.vnone

/-- Value pulled out of an upstream result by one input mapping. -/
def resolveSourceValue (sourceVal : Val) (source_key : String) : Val :=
  if source_key = "output" then sourceVal
  else resolvePath sourceVal (source_key.splitOn ".")

/-- The MERGE branch of _process_node: collects named values from the input
mappings over the stored results, skipping mappings whose pieces are missing
or whose resolved value is None. -/
def processMergeNode (node : WorkflowNode) (st : ExecState) : Val :=
  let mappings := match plookup node.config "input_mappings" with
    | some (Val.vlist ms) => ms
    | _ => []
  Val.vdict (mappings.foldl (fun acc m =>
    match m with
    | Val.vdict md =>
      let source_node := match plookup md "source_node" with
        | some (Val.vstr s) => some s
        | _ => none
      let source_key := match plookup md "source_key" with
        | some (Val.vstr s) => s
        | _ => "output"
      let target_key := match plookup md "target_key" with
        | some (Val.vstr s) => some s
        | _ => none
      match source_node, target_key with
      | some sn, some tk =>
        if sn ≠ "" ∧ tk ≠ "" then
          match plookup st.results sn with
          | some sv =>
            let v := resolveSourceValue sv source_key
            if v.isVNone then acc else dictSet acc tk v
          | none => acc
        else acc
      | _, _ => acc
    | _ => acc) [])

/-- Handler instance for _process_node covering the branches exercised by the
concrete workflows below: START returns the status dict, END returns the
accumulated results view, MERGE resolves its input mappings, and an AGENT
node whose config lacks an agent_name raises the registry ValueError (the
registries are empty in these scenarios).  Remaining node types raise as the
final else branch of _process_node does for unsupported configurations. -/
def procBasic (node : WorkflowNode) (st : ExecState) : Except String Val :=
  match node.type with
  | NodeType.START => Except.ok (Val.vdict [("status", Val.vstr "started")])
  | NodeType.END =>
    Except.ok (Val.vdict
      [("status", Val.vstr "completed"), ("results", Val.vdict st.results)])
  | NodeType.MERGE => Except.ok (processMergeNode node st)
  | NodeType.AGENT =>
    Except.error ("Agent " ++
      (match plookup node.config "agent_name" with
       | some (Val.vstr s) => s
       | _ => "None") ++ " not found in registry")
  | _ => Except.error "Unsupported node configuration"

/-- ToolRegistry tool behaviours: a call on a given input either returns a
value, raises, or exceeds the timeout (asyncio.TimeoutError). -/
inductive ToolOutcome where
  | ret : Val → ToolOutcome
  | exn : String → ToolOutcome
  | hang : ToolOutcome

/-- ToolRegistry of agents/tools/__init__.py.  A registered tool is modelled
by its observable behaviour on each input. -/
structure ToolRegistry where
  tools : List (String × (Val → ToolOutcome)) := []
  allowed_tools : List String := []
  sandbox_mode : Bool := true
  timeout_seconds : Nat := 30

/-- Constructor arguments of ToolRegistry (the config dict fields it reads
with .get defaults). -/
structure ToolRegistryConfig where
  allowed_tools : Option (List String) := none
  sandbox_mode : Option Bool := none
  timeout_seconds : Option Nat := none

/-- ToolRegistry.__init__: applies the config.get defaults; _init_default_tools
is a pass, so the tool map starts empty. -/
def mkToolRegistry (cfg : ToolRegistryConfig) : ToolRegistry :=
  { tools := []
    allowed_tools := cfg.allowed_tools.getD []
    sandbox_mode := cfg.sandbox_mode.getD true
    timeout_seconds := cfg.timeout_seconds.getD 30 }

/-- ToolRegistry.register_tool: when the allow-list is non-empty and the name
is not on it, sandbox mode blocks the registration (the tool is not stored);
without sandbox mode only a warning is logged and the tool is stored.  When
the allow-list is empty the gate does not trigger at all. -/
def ToolRegistry.register_tool (reg : ToolRegistry) (name : String)
    (tool : Val → ToolOutcome) : ToolRegistry :=
  if reg.allowed_tools ≠ [] ∧ name ∉ reg.allowed_tools then
    if reg.sandbox_mode then reg
    else { reg with tools := dictSet reg.tools name tool }
  else { reg with tools := dictSet reg.tools name tool }

/-- ToolRegistry.unregister_tool. -/
def ToolRegistry.unregister_tool (reg : ToolRegistry) (name : String) :
    ToolRegistry × Bool :=
  if (plookup reg.tools name).isSome then
    ({ reg with tools := dictDel reg.tools name }, true)
  else (reg, false)

/-- ToolRegistry.is_tool_allowed: with an empty allow-list every registered
tool is allowed; otherwise the name must be on the list and registered. -/
def ToolRegistry.is_tool_allowed (reg : ToolRegistry) (name : String) : Bool :=
  if reg.allowed_tools.isEmpty then
    (plookup reg.tools name).isSome
  else
    decide (name ∈ reg.allowed_tools) && (plookup reg.tools name).isSome

/-- Error payload used throughout execute_tool. -/
def errVal (msg : String) : Val := Val.vdict [("error", Val.vstr msg)]

/-- ToolRegistry.execute_tool: every failure mode - unknown name, name not
allowed, timeout, exception inside the tool - is absorbed into an error dict;
the function always returns a value and never raises. -/
def ToolRegistry.execute_tool (reg : ToolRegistry) (name : String)
    (tool_input : Val) : Val :=
  match plookup reg.tools name with
  | none => errVal ("Tool " ++ name ++ " not found")
  | some tool =>
    if reg.is_tool_allowed name then
      match tool tool_input with
      | ToolOutcome.ret v => v
      | ToolOutcome.exn m =>
        errVal ("Error executing tool " ++ name ++ ": " ++ m)
      | ToolOutcome.hang =>
        errVal ("Tool " ++ name ++ " execution timed out after " ++
          toString reg.timeout_seconds ++ " seconds")
    else errVal ("Tool " ++ name ++ " is not allowed")

/-- Registry operations for stating the sandbox invariant. -/
inductive RegOp where
  | register : String → (Val → ToolOutcome) → RegOp
  | unregister : String → RegOp

/-- Apply a sequence of registry operations. -/
def applyRegOps (ops : List RegOp) (reg : ToolRegistry) : ToolRegistry :=
  ops.foldl (fun r op =>
    match op with
    | RegOp.register n t => r.register_tool n t
    | RegOp.unregister n => (r.unregister_tool n).1) reg

/-- Substring test, modelling the Python expression needle in haystack. -/
def strContainsSub (haystack needle : String) : Bool :=
  decide (needle.toList <:+: haystack.toList)

/-- Python str.split() with no argument: whitespace runs, empty words
dropped. -/
def pyWords (s : String) : List String :=
  (s.split Char.isWhitespace).filter (fun w => w ≠ "")

/-- Task dataclass of agent_types.py restricted to the fields the router and
the ReAct loop read; agent_type carries the string value of the AgentType str
enum; the random id and the context and result keys are opaque strings.  The
name AgentTask avoids the clash with the Task type of the Lean core
library. -/
structure AgentTask where
  id : String := "task"
  query : String
  agent_type : String := "react"
  max_steps : Option Int := some 10
  tools_allowed : Option (List String) := none
  parameters : List (String × Val) := []

/-- AgentResult dataclass of agent_types.py; thoughts and actions hold raw
model-produced values. -/
structure AgentResult where
  task_id : String
  success : Bool
  output : String
  thoughts : List Val := []
  actions : List Val := []
  metrics : List (String × Val) := []
  error : Option String := none

/-- ModelRouter._classify_task_type. -/
def classifyTaskType (query : String) (tools_allowed : Option (List String)) :
    String :=
  let ql := query.toLower
  if strContainsSub ql "summarize" ∨ strContainsSub ql "summary" then
    "summarization"
  else if strContainsSub ql "translate" then "translation"
  else if strContainsSub ql "code" ∨ strContainsSub ql "function" ∨
      strContainsSub ql "programming" then "coding"
  else if strContainsSub ql "search" ∨ strContainsSub ql "find information" then
    "information_retrieval"
  else if strContainsSub ql "creative" ∨ strContainsSub ql "write a story" ∨
      strContainsSub ql "poem" then "creative_writing"
  else if strContainsSub ql "analyze" ∨ strContainsSub ql "data" then
    "data_analysis"
  else
    match tools_allowed with
    | some tools =>
      if tools ≠ [] then
        if "search" ∈ tools then "information_retrieval"
        else if "calculator" ∈ tools then "calculation"
        else if "sql" ∈ tools then "database_query"
        else "general"
      else "general"
    | none => "general"

/-- ModelRouter._detect_reasoning_types. -/
def detectReasoningTypes (query : String) : List String :=
  let ql := query.toLower
  let l : List String := []
  let l := if strContainsSub ql "why" ∨ strContainsSub ql "explain" ∨
      strContainsSub ql "reason" then l ++ ["causal"] else l
  let l := if strContainsSub ql "compare" ∨
      strContainsSub ql "difference between" then l ++ ["comparative"] else l
  let l := if strContainsSub ql "step by step" ∨ strContainsSub ql "how to" then
    l ++ ["procedural"] else l
  let l := if strContainsSub ql "predict" ∨ strContainsSub ql "forecast" ∨
      strContainsSub ql "future" then l ++ ["predictive"] else l
  let l := if strContainsSub ql "ethics" ∨ strContainsSub ql "moral" ∨
      strContainsSub ql "should" then l ++ ["ethical"] else l
  let l := if strContainsSub ql "creative" ∨ strContainsSub ql "imagine" ∨
      strContainsSub ql "generate" then l ++ ["creative"] else l
  if l = [] then ["logical"] else l

/-- ModelRouter._estimate_response_length. -/
def estimateResponseLength (query : String) : String :=
  let ql := query.toLower
  let word_count := (pyWords query).length
  if strContainsSub ql "brief" ∨ strContainsSub ql "short" ∨ word_count < 10 then
    "short"
  else if strContainsSub ql "detailed" ∨ strContainsSub ql "comprehensive" ∨
      word_count > 30 then "long"
  else "medium"

/-- Feature dict produced by ModelRouter._extract_task_features. -/
structure TaskFeatures where
  complexity : String
  query_length : Nat
  tools_count : Nat
  has_context : Bool
  context_size : Nat
  agent_type : String
  task_type : String
  reasoning_types : List String
  expected_response_length : String
  has_real_time_constraint : Bool

/-- ModelRouter._extract_task_features. -/
def extractTaskFeatures (task : AgentTask) (ctx : List (String × Val)) :
    TaskFeatures :=
  let query_length := task.query.length
  let tools_count := match task.tools_allowed with
    | some t => t.length
    | none => 0
  let context_size :=
    if ctx.isEmpty then 0 else (pyJsonDumps (Val.vdict ctx)).length
  let complexity :=
    if query_length > 500 ∨ tools_count > 5 ∨ context_size > 10000 then "high"
    else if query_length > 200 ∨ tools_count > 2 ∨ context_size > 3000 then
      "medium"
    else "low"
  { complexity := complexity
    query_length := query_length
    tools_count := tools_count
    has_context := ! ctx.isEmpty
    context_size := context_size
    agent_type := task.agent_type
    task_type := classifyTaskType task.query task.tools_allowed
    reasoning_types := detectReasoningTypes task.query
    expected_response_length := estimateResponseLength task.query
    has_real_time_constraint :=
      strContainsSub task.query.toLower "urgent" ∨
      strContainsSub task.query.toLower "immediate" }

/-- One catalog entry of models_config (a dict in Python; the fields the
router reads, with absence modelled by Option so that each .get default is
applied at its use site). -/
structure ModelConf where
  name : String
  backend : String
  model_path : String
  capabilities : List (String × Bool) := []
  resource_efficiency : Option ℚ := none
  quantization : Option String := none
  tensor_parallel_size : Option Nat := none
  max_tokens : Option Nat := none
  temperature : Option ℚ := none
  top_p : Option ℚ := none
  top_k : Option Nat := none

/-- capabilities.get(flag, False). -/
def capGet (caps : List (String × Bool)) (k : String) : Bool :=
  (plookup caps k).getD false

/-- Numeric metric read m.get(k, d); stored metrics are numbers on every
reachable path of the source, so a non-number behaves as the default here. -/
def getNumD (m : List (String × Val)) (k : String) (d : ℚ) : ℚ :=
  match plookup m k with
  | some (Val.vnum q) => q
  | _ => d

/-- Per-task-type success counters of task_history. -/
structure TaskStats where
  total : Nat := 0
  successes : Nat := 0
deriving DecidableEq

/-- Mutable state of ModelRouter: the catalog, the metrics store, the
task-type history and the usage counters (the last_used timestamp and the
evaluation clock are wall-clock effects and are dropped). -/
structure RouterState where
  models_config : List ModelConf := []
  model_metrics : List (String × List (String × Val)) := []
  task_history : List (String × List (String × TaskStats)) := []
  model_usage : List (String × Nat) := []

/-- ModelRouter._calculate_model_score: additive scoring with capability
matches, the historical-metrics block applied only when the model name is
present in the metrics store, resource efficiency, quantization and
parallelism bonuses. -/
def calculateModelScore (model_metrics : List (String × List (String × Val)))
    (conf : ModelConf) (tf : TaskFeatures) : ℚ :=
  let caps := conf.capabilities
  let s1 : ℚ :=
    if tf.complexity = "high" ∧ capGet caps "handles_complex_tasks" then 30
    else if tf.complexity = "medium" ∧ capGet caps "handles_medium_tasks" then 20
    else if tf.complexity = "low" then 10
    else 0
  let s2 := s1 +
    (if tf.agent_type = "multi_agent" ∧ capGet caps "multi_agent_coordination"
     then (15 : ℚ) else 0)
  let s3 := s2 +
    (if tf.agent_type = "human_in_loop" ∧ capGet caps "human_interaction"
     then (15 : ℚ) else 0)
  let s4 := s3 + 10 *
    ((tf.reasoning_types.filter
      (fun r => capGet caps (r ++ "_reasoning"))).length : ℚ)
  let s5 := s4 +
    (if tf.expected_response_length = "long" ∧
        capGet caps "handles_long_generation" then (15 : ℚ)
     else if tf.expected_response_length = "short" ∧
        capGet caps "efficient_short_responses" then 10
     else 0)
  let s6 :=
    match plookup model_metrics conf.name with
    | none => s5
    | some m =>
      let success_rate := getNumD m "success_rate" (1/2)
      let avg_latency := getNumD m "avg_latency" 1000
      let accuracy := getNumD m "accuracy" (1/2)
      let token_efficiency := getNumD m "token_efficiency" (1/2)
      let t := s5 + success_rate * 20 + max 0 (1 - avg_latency / 5000) * 15 +
        accuracy * 25 + token_efficiency * 10
      if tf.has_real_time_constraint ∧ avg_latency > 3000 then t - 30 else t
  let s7 := s6 + (conf.resource_efficiency.getD (1/2)) * 10
  let quantTruthy : Bool := match conf.quantization with
    | some q => decide (q ≠ "")
    | none => false
  let s8 := s7 +
    (if quantTruthy ∧ tf.complexity ≠ "high" then (5 : ℚ) else 0)
  s8 + (if conf.backend = "vLLM" ∧ conf.tensor_parallel_size.getD 1 > 1
        then (5 : ℚ) else 0)

/-- ModelRouter._get_system_load: the source returns a constant simulated
load of 0.5. -/
def getSystemLoad : ℚ := 1/2

/-- ModelRouter._apply_resource_constraints. -/
def applyResourceConstraints (st : RouterState) (score : ℚ) (conf : ModelConf)
    (tf : TaskFeatures) : ℚ :=
  let s1 :=
    if getSystemLoad > 4/5 then
      let s := score + (conf.resource_efficiency.getD (1/2)) * 20
      if conf.backend = "vLLM" ∧ conf.tensor_parallel_size.getD 1 > 1 then
        s - 15
      else s
    else score
  if tf.has_real_time_constraint then
    match plookup st.model_metrics conf.name with
    | some m =>
      let avg_latency := getNumD m "avg_latency" 1000
      if avg_latency < 500 then s1 + 25
      else if avg_latency < 1000 then s1 + 15
      else s1
    | none => s1
  else s1

/-- ModelRouter._get_task_specific_models: per-model success rate for the
task type, for models with at least one recorded attempt. -/
def getTaskSpecificModels (st : RouterState) (task_type : String) :
    List (String × ℚ) :=
  match plookup st.task_history task_type with
  | none => []
  | some task_models =>
    task_models.foldl (fun acc p =>
      if p.2.total > 0 then
        acc ++ [(p.1, (p.2.successes : ℚ) / (p.2.total : ℚ))]
      else acc) []

/-- ModelRouter._record_model_selection. -/
def recordModelSelection (st : RouterState) (task_type : String)
    (model_name : String) : RouterState :=
  let tm := (plookup st.task_history task_type).getD []
  let stats := (plookup tm model_name).getD {}
  let tm1 := dictSet tm model_name { stats with total := stats.total + 1 }
  { st with task_history := dictSet st.task_history task_type tm1 }

/-- ModelRouter._update_model_usage (the last_used timestamp is dropped). -/
def updateModelUsage (st : RouterState) (model_name : String) : RouterState :=
  let newCount := (plookup st.model_usage model_name).getD 0 + 1
  { st with model_usage := dictSet st.model_usage model_name newCount }

/-- ModelRouter._adjust_temperature. -/
def adjustTemperature (base : ℚ) (tf : TaskFeatures) : ℚ :=
  let t := base
  let t := if "logical" ∈ tf.reasoning_types then t - 1/10 else t
  let t := if "creative" ∈ tf.reasoning_types then t + 1/5 else t
  let t := if tf.complexity = "high" then t - 1/10 else t
  max (1/10) (min 1 t)

/-- ModelRouter._generate_selection_reason (Python renders the numbers with
two decimals; the exact text of the numeric parts is approximated by the
canonical rational rendering). -/
def generateSelectionReason (st : RouterState) (conf : ModelConf) (score : ℚ)
    (tf : TaskFeatures) : String :=
  let parts := ["Selected " ++ conf.name ++ " based on task complexity (" ++
      tf.complexity ++ ")", "task type (" ++ tf.task_type ++ ")"]
  let parts := if tf.reasoning_types ≠ [] then
      parts ++ ["required reasoning (" ++
        String.intercalate ", " tf.reasoning_types ++ ")"]
    else parts
  let parts := match plookup st.model_metrics conf.name with
    | some m => parts ++ ["historical performance (success rate: " ++
        toString (getNumD m "success_rate" 0) ++ ")"]
    | none => parts
  String.intercalate ", " (parts ++ ["overall score: " ++ toString score])

/-- LLMBackendType str enum of agent_types.py. -/
inductive LLMBackendType where
  | VLLM | LLAMA_CPP | MLC_LLM | TENSORRT_LLM
deriving DecidableEq

/-- Enum construction LLMBackendType(value); an unknown value raises. -/
def LLMBackendType.ofString : String → Option LLMBackendType
  | "vLLM" => some LLMBackendType.VLLM
  | "llama.cpp" => some LLMBackendType.LLAMA_CPP
  | "MLC-LLM" => some LLMBackendType.MLC_LLM
  | "TensorRT-LLM" => some LLMBackendType.TENSORRT_LLM
  | _ => none

/-- LLMConfig dataclass of agent_types.py (extra_params dropped: the core
never branches on it). -/
structure LLMConfig where
  backend : LLMBackendType
  model_path : String
  max_tokens : Nat
  temperature : ℚ
  top_p : ℚ
  top_k : Nat
  quantization : Option String
  tensor_parallel_size : Nat

/-- Python exception classes that ModelRouter.select_model can raise. -/
inductive PyErr where
  | indexError : String → PyErr
  | valueError : String → PyErr
deriving DecidableEq

/-- Stable insertion used to model the stable descending sort
model_scores.sort(key=score, reverse=True): an element goes before the first
strictly smaller score and after equal scores, so catalog order breaks
ties. -/
def insertDescByScore (x : ModelConf × ℚ) :
    List (ModelConf × ℚ) → List (ModelConf × ℚ)
  | [] => [x]
  | y :: ys => if y.2 ≤ x.2 then x :: y :: ys else y :: insertDescByScore x ys

/-- Stable descending sort by score. -/
def sortByScoreDesc (l : List (ModelConf × ℚ)) : List (ModelConf × ℚ) :=
  l.foldr insertDescByScore []

/-- ModelRouter.select_model: extracts features, scores and sorts the
catalog, takes model_scores[0] (an IndexError on an empty catalog), records
the selection, builds the LLMConfig (the enum conversion can raise
ValueError) and the reason string, and bumps the usage counters. -/
def selectModel (st : RouterState) (task : AgentTask) (ctx : List (String × Val)) :
    Except PyErr (LLMConfig × String × RouterState) :=
  let tf := extractTaskFeatures task ctx
  let task_type := tf.task_type
  let task_specific_models := getTaskSpecificModels st task_type
  let model_scores := st.models_config.map (fun conf =>
    let score := calculateModelScore st.model_metrics conf tf
    let score := match plookup task_specific_models conf.name with
      | some adj => score + adj * 25
      | none => score
    (conf, applyResourceConstraints st score conf tf))
  let sorted := sortByScoreDesc model_scores
  match sorted with
  | [] => Except.error (PyErr.indexError "list index out of range")
  | (conf, score) :: _ =>
    let st1 := recordModelSelection st task_type conf.name
    match LLMBackendType.ofString conf.backend with
    | none =>
      Except.error (PyErr.valueError
        (conf.backend ++ " is not a valid LLMBackendType"))
    | some backend =>
      let config : LLMConfig :=
        { backend := backend
          model_path := conf.model_path
          max_tokens := conf.max_tokens.getD 2048
          temperature := adjustTemperature (conf.temperature.getD (7/10)) tf
          top_p := conf.top_p.getD (19/20)
          top_k := conf.top_k.getD 50
          quantization := conf.quantization
          tensor_parallel_size := conf.tensor_parallel_size.getD 1 }
      let reason := generateSelectionReason st1 conf score tf
      let st2 := updateModelUsage st1 conf.name
      Except.ok (config, reason, st2)

/-- One EMA update of ModelRouter.update_model_metrics for one metric key:
applied only when the key is present in the incoming metrics; the stored
value defaults to the neutral prior. -/
def emaUpdate (cur incoming : List (String × Val)) (key : String) (dflt : ℚ) :
    List (String × Val) :=
  match plookup incoming key with
  | some (Val.vnum x) =>
    dictSet cur key (Val.vnum (getNumD cur key dflt * (9/10) + x * (1/10)))
  | _ => cur

/-- ModelRouter.update_model_metrics: EMA updates for the four tracked
metrics (weight 0.9 old / 0.1 new, neutral priors 0.5, 1000, 0.5, 0.5),
direct copy of the remaining keys, and the task-type success counters when
both task_type and success are present. -/
def updateModelMetrics (st : RouterState) (model_name : String)
    (metrics : List (String × Val)) : RouterState :=
  let cur := (plookup st.model_metrics model_name).getD []
  let cur := emaUpdate cur metrics "success_rate" (1/2)
  let cur := emaUpdate cur metrics "avg_latency" 1000
  let cur := emaUpdate cur metrics "accuracy" (1/2)
  let cur := emaUpdate cur metrics "token_efficiency" (1/2)
  let cur := metrics.foldl (fun c p =>
    if p.1 ∉ ["success_rate", "avg_latency", "accuracy", "token_efficiency"]
    then dictSet c p.1 p.2 else c) cur
  let st1 := { st with model_metrics := dictSet st.model_metrics model_name cur }
  match plookup metrics "task_type", plookup metrics "success" with
  | some (Val.vstr task_type), some success =>
    let tm := (plookup st1.task_history task_type).getD []
    let stats := (plookup tm model_name).getD {}
    let stats := { stats with total := stats.total + 1 }
    let stats := if pyTruthy success then
        { stats with successes := stats.successes + 1 }
      else stats
    let tm1 := dictSet tm model_name stats
    { st1 with task_history := dictSet st1.task_history task_type tm1 }
  | _, _ => st1

/-- Observable behaviour of the LLM backend collaborator inside
AgentCore._execute_react: get_next_action receives the current step marker,
the accumulated actions and thoughts and the context and returns an action
dict (or raises); generate_final_answer synthesizes the output text (or
raises); get_performance_metrics reports a metric map. -/
structure ReactLLM where
  getNextAction : Val → List Val → List Val → List (String × Val) →
    Except String (List (String × Val))
  generateFinalAnswer : AgentTask → List Val → List Val →
    List (String × Val) → Except String String
  performanceMetrics : List (String × Val) := []

/-- Required dict access d[k]; a missing key raises KeyError. -/
def requireKey (d : List (String × Val)) (k : String) : Except String Val :=
  match plookup d k with
  | some v => Except.ok v
  | none => Except.error ("KeyError: " ++ k)

/-- The bounded for-loop of _execute_react: at each remaining step ask the
model for the next action, append its thought, stop when the action is marked
done, otherwise run the tool through the registry (whose failures come back
as data, never as exceptions), append the action record, and continue at the
declared next step.  The timestamp field of the action record is dropped
(wall clock).  Tool names are modelled as strings: a non-string name can
never be a registry key, which the string model reproduces through an
always-missing name. -/
def reactLoop (reg : ToolRegistry) (llm : ReactLLM)
    (ctx : List (String × Val)) :
    Nat → Val → List Val → List Val → Except String (List Val × List Val)
  | 0, _, actions, thoughts => Except.ok (actions, thoughts)
  | n + 1, current_step, actions, thoughts =>
    match llm.getNextAction current_step actions thoughts ctx with
    | Except.error e => Except.error e
    | Except.ok next_action =>
      match plookup next_action "thought" with
      | none => Except.error "KeyError: thought"
      | some th =>
        let thoughts := thoughts ++ [th]
        if pyTruthy ((plookup next_action "done").getD (Val.vbool false)) then
          Except.ok (actions, thoughts)
        else
          match plookup next_action "tool" with
          | none => Except.error "KeyError: tool"
          | some toolV =>
            match plookup next_action "tool_input" with
            | none => Except.error "KeyError: tool_input"
            | some tool_input =>
              let tool_name := match toolV with
                | Val.vstr s => s
                | _ => ""
              let tool_result := reg.execute_tool tool_name tool_input
              let actions := actions ++ [Val.vdict
                [("tool", toolV), ("tool_input", tool_input),
                 ("result", tool_result)]]
              match plookup next_action "next_step" with
              | none => Except.error "KeyError: next_step"
              | some ns => reactLoop reg llm ctx n ns actions thoughts

/-- Step bound task.max_steps or 10: Python truthiness turns None and 0 into
10, and range() of a negative count is empty. -/
def reactStepBound (max_steps : Option Int) : Nat :=
  match max_steps with
  | none => 10
  | some n => if n = 0 then 10 else n.toNat

/-- AgentCore._execute_react: read the plan entry point, run the bounded
loop, synthesize the final answer, and return an AgentResult that is
unconditionally marked success=True. -/
def executeReact (reg : ToolRegistry) (llm : ReactLLM) (task : AgentTask)
    (plan : List (String × Val)) (ctx : List (String × Val)) :
    Except String AgentResult :=
  match plookup plan "first_step" with
  | none => Except.error "KeyError: first_step"
  | some first_step =>
    match reactLoop reg llm ctx (reactStepBound task.max_steps)
        first_step [] [] with
    | Except.error e => Except.error e
    | Except.ok (actions, thoughts) =>
      match llm.generateFinalAnswer task thoughts actions ctx with
      | Except.error e => Except.error e
      | Except.ok final_answer =>
        Except.ok
          { task_id := task.id
            success := true
            output := final_answer
            thoughts := thoughts
            actions := actions
            metrics := llm.performanceMetrics }

/-- Specification-side notion: p is a chain of edge targets starting at a,
with one edge of the list between consecutive elements. -/
def chainFromB (edges : List WorkflowEdge) : String → List String → Bool
  | _, [] => true
  | a, b :: rest =>
    edges.any (fun e => decide (e.source_node = a) && decide (e.target_node = b))
      && chainFromB edges b rest

/-- Specification-side notion: the edge list contains a directed cycle. -/
def HasCycle (edges : List WorkflowEdge) : Prop :=
  ∃ a p, p ≠ [] ∧ chainFromB edges a p = true ∧ p.getLast? = some a

/-- Specification-side notion: k is reachable from s (reflexively) along the
edges. -/
def ReachB (edges : List WorkflowEdge) (s k : String) : Prop :=
  k = s ∨ ∃ p, p ≠ [] ∧ chainFromB edges s p = true ∧ p.getLast? = some k

/-- Number of keys not yet visited; the step measure of the cycle DFS. -/
def unvisitedCount (keys visited : List String) : Nat :=
  (keys.filter (fun k => k ∉ visited)).length

/-- Concrete linear workflow start - A - B - end in which A is an AGENT node
whose config names no agent (so its handler raises the registry ValueError)
and B is a pure MERGE node; there is no FAILURE edge anywhere. -/
def gLinFail : WorkflowGraph :=
  { name := "lin_fail"
    nodes := [("start", { id := "start", type := NodeType.START, name := "Start" }),
      ("A", { id := "A", type := NodeType.AGENT, name := "A" }),
      ("B", { id := "B", type := NodeType.MERGE, name := "B" }),
      ("end", { id := "end", type := NodeType.END, name := "End" })]
    edges := [{ source_node := "start", target_node := "A" },
      { source_node := "A", target_node := "B" },
      { source_node := "B", target_node := "end" }]
    start_node := some "start"
    end_nodes := ["end"] }

/-- Concrete linear workflow start - A - B - end whose A and B are pure MERGE
nodes, so every handler succeeds. -/
def gLinOk : WorkflowGraph :=
  { name := "lin_ok"
    nodes := [("start", { id := "start", type := NodeType.START, name := "Start" }),
      ("A", { id := "A", type := NodeType.MERGE, name := "A" }),
      ("B", { id := "B", type := NodeType.MERGE, name := "B" }),
      ("end", { id := "end", type := NodeType.END, name := "End" })]
    edges := [{ source_node := "start", target_node := "A" },
      { source_node := "A", target_node := "B" },
      { source_node := "B", target_node := "end" }]
    start_node := some "start"
    end_nodes := ["end"] }

/-- State of the gLinFail execution just before node A is processed. -/
def stBeforeA : ExecState :=
  { current_nodes := []
    completed_nodes := ["start"]
    results := [("start", Val.vdict [("status", Val.vstr "started")])] }

/-- State of the gLinFail execution just after node A failed: A completed
with the error payload, nothing activated. -/
def stAfterA : ExecState :=
  { current_nodes := []
    completed_nodes := pyInsert "A" ["start"]
    results := dictSet stBeforeA.results "A"
      (Val.vdict [("error", Val.vstr "Agent None not found in registry")]) }

/-- C1: the claim asserts that after a handler exception with no FAILURE
edge the node is completed with an error marker, the workflow does not abort,
and the downstream node B still runs so that execution reaches the end node.
At the concrete linear workflow gLinFail the execution instead returns with
results that contain only start and A: neither B nor end was ever processed
and the end_nodes map is empty, refuting the still-runs part of the claim. -/
theorem C1_counterexample :
    executeWorkflow procBasic gLinFail [] = Except.ok
      { completed := true
        results := [("start", Val.vdict [("status", Val.vstr "started")]),
          ("A", Val.vdict [("error",
            Val.vstr "Agent None not found in registry")])]
        end_nodes := [] } := by
  rfl

/-- C1 (amended): on a handler exception with no outgoing FAILURE edge the
engine marks the node completed with the error payload and continues the wave
without activating anything downstream (the non-FAILURE out-edges of the
failed node are not followed); consequently the concrete linear run
terminates normally, does not abort, and its results contain start and the
error marker for A but no entry for B or end. -/
theorem C1_amended :
    (∀ (g : WorkflowGraph)
       (proc : WorkflowNode → ExecState → Except String Val)
       (nid : String) (rest : List String) (st : ExecState)
       (node : WorkflowNode) (e : String),
       nid ∉ st.completed_nodes →
       plookup g.nodes nid = some node →
       proc node st = Except.error e →
       g.edges.filter (fun ed =>
         ed.source_node = nid ∧ ed.condition = EdgeCondition.FAILURE) = [] →
       runWave g proc (nid :: rest) st = runWave g proc rest
         { st with
           completed_nodes := pyInsert nid st.completed_nodes
           results := dictSet st.results nid
             (Val.vdict [("error", Val.vstr e)]) }) ∧
    executeWorkflow procBasic gLinFail [] = Except.ok
      { completed := true
        results := [("start", Val.vdict [("status", Val.vstr "started")]),
          ("A", Val.vdict [("error",
            Val.vstr "Agent None not found in registry")])]
        end_nodes := [] } := by
  constructor
  · intro g proc nid rest st node e h1 h2 h3 h4
    simp only [runWave, h1, if_false, h2, h3, h4]
    simp [h1]
  · rfl

/-- C1 (amended) witness: the general wave-step fact instantiated at the
failing node A of gLinFail. -/
theorem C1_amended_witness :
    runWave gLinFail procBasic ["A"] stBeforeA =
      runWave gLinFail procBasic [] stAfterA := by
  exact C1_amended.1 gLinFail procBasic "A" [] stBeforeA
    { id := "A", type := NodeType.AGENT, name := "A" }
    "Agent None not found in registry" (by decide) rfl rfl rfl

/-- C5: the claim asserts that every END node is executed and that the final
end_nodes map is non-empty for a valid linear graph.  In the concrete
all-successful linear run the loop exits as soon as the frontier is exactly
the END node, so end is never executed, has no stored result, and the
end_nodes map is empty. -/
theorem C5_counterexample :
    executeWorkflow procBasic gLinOk [] = Except.ok
      { completed := true
        results := [("start", Val.vdict [("status", Val.vstr "started")]),
          ("A", Val.vdict []), ("B", Val.vdict [])]
        end_nodes := [] } := by
  rfl

/-- C5 (amended): the final end_nodes map of any successful execution
contains exactly the END node ids that have a stored result; an END node
that only ever appears as the full frontier is never executed, so in the
concrete valid linear run the END node has no stored result and the
end_nodes map is empty. -/
theorem C5_amended :
    (∀ (g : WorkflowGraph)
       (proc : WorkflowNode → ExecState → Except String Val)
       (ctx : List (String × Val)) (r : FinalResult),
       executeWorkflow proc g ctx = Except.ok r →
       r.end_nodes = g.end_nodes.filterMap (fun nid =>
         (plookup r.results nid).map (fun v => (nid, v)))) ∧
    executeWorkflow procBasic gLinOk [] = Except.ok
      { completed := true
        results := [("start", Val.vdict [("status", Val.vstr "started")]),
          ("A", Val.vdict []), ("B", Val.vdict [])]
        end_nodes := [] } := by
  constructor
  · intro g proc ctx r h
    unfold executeWorkflow at h
    by_cases hv : g.validate.isEmpty
    · simp only [hv, if_true] at h
      cases hl : execLoop g proc ((g.nodes.length + 2) * (g.nodes.length + 2))
          { current_nodes := g.start_node.toList, context := ctx } with
      | error e => rw [hl] at h; cases h
      | ok st =>
        rw [hl] at h
        cases h
        rfl
    · simp only [hv, if_false] at h
      cases h
  · rfl

/-- C5 (amended) witness: the end_nodes construction fact instantiated at the
concrete linear run. -/
theorem C5_amended_witness :
    ({ completed := true
       results := [("start", Val.vdict [("status", Val.vstr "started")]),
         ("A", Val.vdict []), ("B", Val.vdict [])]
       end_nodes := [] } : FinalResult).end_nodes =
      gLinOk.end_nodes.filterMap (fun nid =>
        (plookup [("start", Val.vdict [("status", Val.vstr "started")]),
          ("A", Val.vdict []), ("B", Val.vdict [])] nid).map
          (fun v => (nid, v))) := by
  exact C5_amended.1 gLinOk procBasic [] _ C5_amended.2

/-- Router state after n consecutive update_model_metrics calls with
success_rate=1.0 for model m, starting from a state with no stored
metrics. -/
def routerAfterSuccesses : Nat → RouterState
  | 0 => {}
  | n + 1 => updateModelMetrics (routerAfterSuccesses n) "m"
      [("success_rate", Val.vnum 1)]

/-- Stored success_rate EMA of model m (the neutral prior is only the read
default; after at least one update the key is present). -/
def storedSuccessRate (st : RouterState) : ℚ :=
  getNumD ((plookup st.model_metrics "m").getD []) "success_rate" (1/2)

theorem storedSuccessRate_step (st : RouterState) :
    storedSuccessRate (updateModelMetrics st "m" [("success_rate", Val.vnum 1)]) =
      storedSuccessRate st * (9 / 10) + 1 / 10 := by
  simp [updateModelMetrics, emaUpdate, plookup, storedSuccessRate, getNumD,
    plookup_dictSet_self]

theorem storedSuccessRate_closed (n : Nat) :
    storedSuccessRate (routerAfterSuccesses n) = 1 - (1/2) * (9/10) ^ n := by
  induction n with
  | zero =>
    show storedSuccessRate {} = _
    simp [storedSuccessRate, plookup, getNumD]
    norm_num
  | succ n ih =>
    show storedSuccessRate (updateModelMetrics (routerAfterSuccesses n) "m" _) = _
    rw [storedSuccessRate_step, ih, pow_succ]
    ring

/-- C3: the claim asserts that ten consecutive success_rate=1.0 updates from
the neutral 0.5 prior drive the EMA strictly above 0.85.  The exact value is
1 - 0.5 * 0.9 ^ 10 = 16513215599/20000000000, approximately 0.8257, which is
not greater than 0.85. -/
theorem C3_counterexample :
    storedSuccessRate (routerAfterSuccesses 10) = 16513215599 / 20000000000 ∧
    ¬ storedSuccessRate (routerAfterSuccesses 10) > 85 / 100 := by
  rw [storedSuccessRate_closed]
  norm_num

/-- C3 (amended): ten consecutive success_rate=1.0 updates from the neutral
0.5 prior drive the EMA strictly above 0.82 but leave it at or below 0.85;
twelve consecutive updates drive it above 0.85. -/
theorem C3_amended :
    storedSuccessRate (routerAfterSuccesses 10) > 82 / 100 ∧
    storedSuccessRate (routerAfterSuccesses 10) ≤ 85 / 100 ∧
    storedSuccessRate (routerAfterSuccesses 12) > 85 / 100 := by
  rw [storedSuccessRate_closed, storedSuccessRate_closed]
  norm_num

/-- Task used for the empty-catalog scenario. -/
def c4Task : AgentTask := { query := "hello" }

/-- C4 (amended): with an empty catalog, select_model reaches
model_scores[0] on an empty list and raises IndexError - there is no
dedicated ModelUnavailable error anywhere in the router. -/
theorem C4_amended :
    ∀ (st : RouterState) (task : AgentTask) (ctx : List (String × Val)),
      st.models_config = [] →
      selectModel st task ctx =
        Except.error (PyErr.indexError "list index out of range") := by
  intro st task ctx h
  simp [selectModel, h, sortByScoreDesc]

/-- C4 (amended) witness: the empty-catalog IndexError at a concrete state
and task. -/
theorem C4_amended_witness :
    selectModel {} c4Task [] =
      Except.error (PyErr.indexError "list index out of range") := by
  exact C4_amended {} c4Task [] rfl

/-- C4: the claim asserts that an empty catalog fails with a dedicated
catchable ModelUnavailable error and not with an out-of-bounds access; the
concrete run shows the failure is exactly the IndexError of the out-of-bounds
list access model_scores[0]. -/
theorem C4_counterexample :
    selectModel {} c4Task [] =
      Except.error (PyErr.indexError "list index out of range") := by
  rfl

/-- Catalog entry with no stored metrics used in the missing-metrics
scenario. -/
def c6Conf : ModelConf := { name := "m", backend := "vLLM", model_path := "p" }

/-- Task features used in the missing-metrics scenario. -/
def c6Features : TaskFeatures :=
  { complexity := "low"
    query_length := 0
    tools_count := 0
    has_context := false
    context_size := 0
    agent_type := "react"
    task_type := "general"
    reasoning_types := ["logical"]
    expected_response_length := "medium"
    has_real_time_constraint := false }

/-- The neutral default metric values named by the claim, stored
explicitly. -/
def neutralDefaultMetrics : List (String × Val) :=
  [("success_rate", Val.vnum (1/2)), ("avg_latency", Val.vnum 1000),
   ("accuracy", Val.vnum (1/2)), ("token_efficiency", Val.vnum (1/2))]

/-- C6: the claim asserts that a model with no stored metrics is scored as if
it had the neutral default metrics.  At a concrete entry the score with the
defaults actually stored differs from the score with no stored metrics (by
39.5 points: the historical block is skipped entirely when the name is
missing from the metrics store). -/
theorem C6_counterexample :
    calculateModelScore [("m", neutralDefaultMetrics)] c6Conf c6Features ≠
      calculateModelScore [] c6Conf c6Features := by
  have h1 : calculateModelScore [("m", neutralDefaultMetrics)] c6Conf c6Features
      = 109 / 2 := by
    simp [calculateModelScore, c6Conf, c6Features, neutralDefaultMetrics,
      plookup, capGet, getNumD]
    rw [show (0 : ℚ) ⊔ (1 - 1000 / 5000) = 4/5 by norm_num]
    norm_num
  have h2 : calculateModelScore [] c6Conf c6Features = 15 := by
    simp [calculateModelScore, c6Conf, c6Features, plookup, capGet, getNumD]
    norm_num
  rw [h1, h2]
  norm_num

/-- C6 (amended): a catalog entry whose name is absent from the metrics
store receives no historical-metrics contribution at all (its score equals
the score computed with an empty metrics store, 39.5 points below a model
whose stored metrics are exactly the neutral defaults), and the score
function is total, so the missing metrics never raise. -/
theorem C6_amended :
    ∀ (store : List (String × List (String × Val))) (conf : ModelConf)
      (tf : TaskFeatures),
      plookup store conf.name = none →
      calculateModelScore store conf tf = calculateModelScore [] conf tf := by
  intro store conf tf h
  simp [calculateModelScore, h, plookup]

/-- C6 (amended) witness: the missing-metrics scoring fact at a concrete
store that holds metrics only for another model. -/
theorem C6_amended_witness :
    calculateModelScore [("other", [])] c6Conf c6Features =
      calculateModelScore [] c6Conf c6Features := by
  exact C6_amended [("other", [])] c6Conf c6Features rfl

/-- C7: execute_tool converts every failure mode into a structured error
value instead of raising - the function is total, so no exception ever
escapes it.  A timeout yields the timed-out error dict mentioning the
configured timeout, a missing name the not-found dict, a disallowed name the
not-allowed dict, an exception in the tool the execution-error dict; and a
registry built without a timeout entry uses the 30 second default. -/
theorem C7_execute_tool_structured :
    ∀ (reg : ToolRegistry) (name : String) (input : Val)
      (tool : Val → ToolOutcome) (m : String) (cfg : ToolRegistryConfig),
      (plookup reg.tools name = some tool → reg.is_tool_allowed name = true →
        tool input = ToolOutcome.hang →
        reg.execute_tool name input =
          errVal ("Tool " ++ name ++ " execution timed out after " ++
            toString reg.timeout_seconds ++ " seconds")) ∧
      (plookup reg.tools name = none →
        reg.execute_tool name input = errVal ("Tool " ++ name ++ " not found")) ∧
      (plookup reg.tools name = some tool → reg.is_tool_allowed name = false →
        reg.execute_tool name input =
          errVal ("Tool " ++ name ++ " is not allowed")) ∧
      (plookup reg.tools name = some tool → reg.is_tool_allowed name = true →
        tool input = ToolOutcome.exn m →
        reg.execute_tool name input =
          errVal ("Error executing tool " ++ name ++ ": " ++ m)) ∧
      (cfg.timeout_seconds = none → (mkToolRegistry cfg).timeout_seconds = 30) := by
  intro reg name input tool m cfg
  refine ⟨?_, ?_, ?_, ?_, ?_⟩
  · intro h1 h2 h3
    simp [ToolRegistry.execute_tool, h1, h2, h3]
  · intro h1
    simp [ToolRegistry.execute_tool, h1]
  · intro h1 h2
    simp [ToolRegistry.execute_tool, h1, h2]
  · intro h1 h2 h3
    simp [ToolRegistry.execute_tool, h1, h2, h3]
  · intro h1
    simp [mkToolRegistry, h1]

/-- A tool whose every call exceeds the timeout. -/
def hangingTool : Val → ToolOutcome := fun _ => ToolOutcome.hang

/-- Registry with default config and a hanging tool registered. -/
def hangRegistry : ToolRegistry :=
  (mkToolRegistry {}).register_tool "t" hangingTool

/-- C7 witness: at the concrete registry with a hanging tool, the call
returns the structured timed-out error with the default 30 second timeout. -/
theorem C7_execute_tool_structured_witness :
    hangRegistry.execute_tool "t" Val.vnone =
      errVal "Tool t execution timed out after 30 seconds" ∧
    (mkToolRegistry {}).timeout_seconds = 30 := by
  constructor
  · exact (C7_execute_tool_structured hangRegistry "t" Val.vnone hangingTool
      "" {}).1 rfl rfl rfl
  · exact (C7_execute_tool_structured hangRegistry "t" Val.vnone hangingTool
      "" {}).2.2.2.2 rfl

/-- Registry in sandbox mode with an empty allow-list. -/
def sandboxEmptyAllowReg : ToolRegistry :=
  mkToolRegistry { allowed_tools := some [], sandbox_mode := some true }

/-- A tool that returns None on every input. -/
def benignTool : Val → ToolOutcome := fun _ => ToolOutcome.ret Val.vnone

/-- C8: the claim asserts that under sandbox mode only allow-listed names can
ever be stored, including when the allow-list is empty.  With an empty
allow-list the gate is skipped entirely: registering an arbitrary name in
sandbox mode stores it, refuting the claim. -/
theorem C8_counterexample :
    ((sandboxEmptyAllowReg.register_tool "evil" benignTool).tools.map
      Prod.fst) = ["evil"] := by
  rfl

theorem map_fst_dictSet_mem [DecidableEq κ] (l : List (κ × β)) (k x : κ)
    (v : β) : x ∈ (dictSet l k v).map Prod.fst → x = k ∨ x ∈ l.map Prod.fst := by
  induction l with
  | nil => simp [dictSet]
  | cons p rest ih =>
    by_cases h : p.1 = k
    · obtain ⟨k1, v1⟩ := p
      simp only at h
      simp [dictSet, h]
    · obtain ⟨k1, v1⟩ := p
      simp only at h
      simp only [dictSet, h, if_false, List.map_cons, List.mem_cons]
      rintro (rfl | hx)
      · right; left; rfl
      · rcases ih hx with h1 | h1
        · left; exact h1
        · right; right; exact h1

theorem map_fst_dictDel_mem [DecidableEq κ] (l : List (κ × β)) (k x : κ) :
    x ∈ (dictDel l k).map Prod.fst → x ∈ l.map Prod.fst := by
  induction l with
  | nil => simp [dictDel]
  | cons p rest ih =>
    obtain ⟨k1, v1⟩ := p
    by_cases h : k1 = k
    · simp only [dictDel, h, if_true, List.map_cons, List.mem_cons]
      intro hx
      right; exact hx
    · simp only [dictDel, h, if_false, List.map_cons, List.mem_cons]
      rintro (rfl | hx)
      · left; rfl
      · right; exact ih hx

theorem register_tool_fields (reg : ToolRegistry) (n : String)
    (t : Val → ToolOutcome) :
    (reg.register_tool n t).allowed_tools = reg.allowed_tools ∧
    (reg.register_tool n t).sandbox_mode = reg.sandbox_mode := by
  unfold ToolRegistry.register_tool
  split <;> (try split) <;> exact ⟨rfl, rfl⟩

theorem unregister_tool_fields (reg : ToolRegistry) (n : String) :
    (reg.unregister_tool n).1.allowed_tools = reg.allowed_tools ∧
    (reg.unregister_tool n).1.sandbox_mode = reg.sandbox_mode := by
  unfold ToolRegistry.unregister_tool
  split <;> exact ⟨rfl, rfl⟩

theorem register_tool_keys_subset (reg : ToolRegistry) (n : String)
    (t : Val → ToolOutcome)
    (hs : reg.sandbox_mode = true) (hne : reg.allowed_tools ≠ [])
    (hinv : ∀ k ∈ reg.tools.map Prod.fst, k ∈ reg.allowed_tools) :
    ∀ k ∈ (reg.register_tool n t).tools.map Prod.fst, k ∈ reg.allowed_tools := by
  intro k hk
  unfold ToolRegistry.register_tool at hk
  by_cases hmem : n ∈ reg.allowed_tools
  · have : ¬ (reg.allowed_tools ≠ [] ∧ n ∉ reg.allowed_tools) := by
      intro ⟨_, h2⟩; exact h2 hmem
    rw [if_neg this] at hk
    rcases map_fst_dictSet_mem _ _ _ _ hk with rfl | h
    · exact hmem
    · exact hinv k h
  · rw [if_pos ⟨hne, hmem⟩, if_pos hs] at hk
    exact hinv k hk

theorem applyRegOps_keys_subset (ops : List RegOp) (reg : ToolRegistry)
    (hs : reg.sandbox_mode = true) (hne : reg.allowed_tools ≠ [])
    (hinv : ∀ k ∈ reg.tools.map Prod.fst, k ∈ reg.allowed_tools) :
    ∀ k ∈ (applyRegOps ops reg).tools.map Prod.fst, k ∈ reg.allowed_tools := by
  induction ops generalizing reg with
  | nil => exact hinv
  | cons op rest ih =>
    cases op with
    | register n t =>
      have hfields := register_tool_fields reg n t
      have step := register_tool_keys_subset reg n t hs hne hinv
      have := ih (reg.register_tool n t)
        (by rw [hfields.2]; exact hs)
        (by rw [hfields.1]; exact hne)
        (by rw [hfields.1]; exact step)
      rw [hfields.1] at this
      exact this
    | unregister n =>
      have hfields := unregister_tool_fields reg n
      have step : ∀ k ∈ (reg.unregister_tool n).1.tools.map Prod.fst,
          k ∈ reg.allowed_tools := by
        intro k hk
        unfold ToolRegistry.unregister_tool at hk
        split at hk
        · exact hinv k (map_fst_dictDel_mem _ _ _ hk)
        · exact hinv k hk
      have := ih (reg.unregister_tool n).1
        (by rw [hfields.2]; exact hs)
        (by rw [hfields.1]; exact hne)
        (by rw [hfields.1]; exact step)
      rw [hfields.1] at this
      exact this

/-- C8 (amended): under sandbox mode with a non-empty allow-list the
registration gate is hard - starting from the freshly constructed registry
(whose tool map is empty), any sequence of register and unregister operations
leaves only allow-listed names in the tool map.  With an empty allow-list the
gate is skipped entirely and every registration is accepted (see the
counterexample). -/
theorem C8_amended :
    ∀ (cfg : ToolRegistryConfig) (ops : List RegOp),
      (mkToolRegistry cfg).sandbox_mode = true →
      (mkToolRegistry cfg).allowed_tools ≠ [] →
      ∀ k ∈ (applyRegOps ops (mkToolRegistry cfg)).tools.map Prod.fst,
        k ∈ (mkToolRegistry cfg).allowed_tools := by
  intro cfg ops hs hne
  exact applyRegOps_keys_subset ops (mkToolRegistry cfg) hs hne (by simp [mkToolRegistry])

/-- Sandbox config with the one-element allow-list used by the C8 witness. -/
def c8Cfg : ToolRegistryConfig :=
  { allowed_tools := some ["a"], sandbox_mode := some true }

/-- Operation sequence mixing allowed and blocked registrations; the name a
ends up registered, b and c are blocked by the sandbox gate. -/
def c8Ops : List RegOp :=
  [RegOp.register "b" benignTool, RegOp.register "a" benignTool,
   RegOp.unregister "a", RegOp.register "c" benignTool,
   RegOp.register "a" benignTool]

/-- C8 (amended) witness: after the concrete operation sequence the key a is
in the tool map, and the invariant places it on the allow-list. -/
theorem C8_amended_witness :
    "a" ∈ (mkToolRegistry c8Cfg).allowed_tools := by
  exact C8_amended c8Cfg c8Ops rfl (by simp [mkToolRegistry, c8Cfg])
    "a" (by decide)

/-- C10: whenever the ReAct execution path completes without an exception it
returns an AgentResult whose success flag is True - the flag is set
unconditionally at the single construction site, independent of how many
tool invocations returned error values. -/
theorem C10_react_success_unconditional :
    ∀ (reg : ToolRegistry) (llm : ReactLLM) (task : AgentTask)
      (plan ctx : List (String × Val)) (r : AgentResult),
      executeReact reg llm task plan ctx = Except.ok r → r.success = true := by
  intro reg llm task plan ctx r h
  unfold executeReact at h
  split at h
  · cases h
  · split at h
    · cases h
    · split at h
      · cases h
      · cases h
        rfl

/-- Model stub for the witness: the first action calls an unregistered tool
(whose result is therefore an error value), the second action reports
done. -/
def llmToolThenDone : ReactLLM :=
  { getNextAction := fun _ actions _ _ =>
      if actions.isEmpty then
        Except.ok [("thought", Val.vstr "use tool"),
          ("tool", Val.vstr "missing"), ("tool_input", Val.vnone),
          ("next_step", Val.vnum 1)]
      else
        Except.ok [("thought", Val.vstr "finish"), ("done", Val.vbool true)]
    generateFinalAnswer := fun _ _ _ _ => Except.ok "answer" }

/-- C10 witness: the concrete ReAct run whose only tool call returned an
error value still completes with success=True. -/
theorem C10_react_success_unconditional_witness :
    executeReact (mkToolRegistry {}) llmToolThenDone { query := "do it" }
        [("first_step", Val.vnum 0)] [] = Except.ok
      { task_id := "task"
        success := true
        output := "answer"
        thoughts := [Val.vstr "use tool", Val.vstr "finish"]
        actions := [Val.vdict [("tool", Val.vstr "missing"),
          ("tool_input", Val.vnone),
          ("result", errVal "Tool missing not found")]]
        metrics := [] } ∧
    ({ task_id := "task"
       success := true
       output := "answer"
       thoughts := [Val.vstr "use tool", Val.vstr "finish"]
       actions := [Val.vdict [("tool", Val.vstr "missing"),
         ("tool_input", Val.vnone),
         ("result", errVal "Tool missing not found")]]
       metrics := [] } : AgentResult).success = true := by
  refine ⟨rfl, ?_⟩
  exact C10_react_success_unconditional (mkToolRegistry {}) llmToolThenDone
    { query := "do it" } [("first_step", Val.vnum 0)] [] _ rfl


theorem exceptOkBind (a : α) (f : α → Except ε β) :
    (Except.ok a : Except ε α) >>= f = f a := rfl

theorem exceptPureEq (a : α) : (pure a : Except ε α) = Except.ok a := rfl

theorem dictSet_append_of_not_mem [DecidableEq κ] (l : List (κ × β)) (k : κ)
    (v : β) (h : k ∉ l.map Prod.fst) : dictSet l k v = l ++ [(k, v)] := by
  induction l with
  | nil => rfl
  | cons p rest ih =>
    obtain ⟨k1, v1⟩ := p
    simp only [List.map_cons, List.mem_cons, not_or] at h
    have hk1 : ¬ k1 = k := fun hh => h.1 hh.symm
    simp only [dictSet, if_neg hk1]
    rw [ih h.2]
    rfl

theorem foldlM_except_map (f : β → γ) (g : α → γ → Except ε α)
    (l : List β) (init : α) :
    List.foldlM g init (l.map f) =
      List.foldlM (fun x y => g x (f y)) init l := by
  induction l generalizing init with
  | nil => rfl
  | cons b rest ih =>
    simp only [List.map_cons, List.foldlM_cons]
    cases g init (f b) with
    | error e => rfl
    | ok a =>
      rw [exceptOkBind, exceptOkBind]
      exact ih a

theorem add_node_start (acc : WorkflowGraph) (node : WorkflowNode)
    (h : node.type = NodeType.START) (h0 : acc.start_node = none) :
    acc.add_node node = Except.ok
      { acc with
        nodes := dictSet acc.nodes node.id node
        start_node := some node.id } := by
  have hne : ¬ node.type = NodeType.END := by
    rw [h]; intro hc; cases hc
  simp [WorkflowGraph.add_node, h, h0, hne]

theorem add_node_plain (acc : WorkflowGraph) (node : WorkflowNode)
    (h : ¬ node.type = NodeType.START) (hne : ¬ node.type = NodeType.END) :
    acc.add_node node = Except.ok
      { acc with nodes := dictSet acc.nodes node.id node } := by
  simp [WorkflowGraph.add_node, h, hne]

theorem add_node_endnode (acc : WorkflowGraph) (node : WorkflowNode)
    (_h : ¬ node.type = NodeType.START) (hE : node.type = NodeType.END) :
    acc.add_node node = Except.ok
      { acc with
        nodes := dictSet acc.nodes node.id node
        end_nodes := pyInsert node.id acc.end_nodes } := by
  have : ¬ NodeType.END = NodeType.START := fun hc => by cases hc
  simp [WorkflowGraph.add_node, hE, this]

theorem foldAddNodes (l : List (String × WorkflowNode)) :
    ∀ acc : WorkflowGraph,
      (∀ p ∈ l, p.2.id = p.1) →
      (∀ p ∈ l, p.1 ∉ acc.nodes.map Prod.fst) →
      (l.map Prod.fst).Nodup →
      (l.filter (fun p => p.2.type = NodeType.START)).length +
        (if acc.start_node.isSome then 1 else 0) ≤ 1 →
      ∃ s e, l.foldlM (fun gg p => gg.add_node p.2) acc = Except.ok
        { acc with nodes := acc.nodes ++ l, start_node := s, end_nodes := e } := by
  induction l with
  | nil =>
    intro acc _ _ _ _
    exact ⟨acc.start_node, acc.end_nodes, by
      simp only [List.foldlM_nil, exceptPureEq, List.append_nil]⟩
  | cons p rest ih =>
    intro acc hids hfresh hnodup hbudget
    have hid : p.2.id = p.1 := hids p (List.mem_cons_self p rest)
    have hpfresh : p.1 ∉ acc.nodes.map Prod.fst :=
      hfresh p (List.mem_cons_self p rest)
    have hset : dictSet acc.nodes p.2.id p.2 = acc.nodes ++ [p] := by
      rw [hid, dictSet_append_of_not_mem acc.nodes p.1 p.2 hpfresh]
    simp only [List.map_cons, List.nodup_cons] at hnodup
    have hfreshRest : ∀ q ∈ rest, q.1 ∉ (acc.nodes ++ [p]).map Prod.fst := by
      intro q hq
      simp only [List.map_append, List.mem_append, List.map_cons,
        List.map_nil, List.mem_singleton]
      rintro (h1 | h1)
      · exact hfresh q (List.mem_cons_of_mem p hq) h1
      · exact hnodup.1 (h1 ▸ List.mem_map_of_mem Prod.fst hq)
    rw [List.foldlM_cons]
    by_cases hstart : p.2.type = NodeType.START
    · have hfilter :
          ((p :: rest).filter
            (fun q => decide (q.2.type = NodeType.START))).length
            = ((rest).filter
              (fun q => decide (q.2.type = NodeType.START))).length + 1 := by
        simp [List.filter_cons, hstart]
      rw [hfilter] at hbudget
      have hacc_none : acc.start_node = none := by
        cases hs : acc.start_node with
        | none => rfl
        | some s =>
          exfalso
          rw [hs] at hbudget
          rw [show (if (some s : Option String).isSome = true then 1 else 0)
            = 1 from rfl] at hbudget
          omega
      have hrest0 :
          ((rest).filter
            (fun q => decide (q.2.type = NodeType.START))).length = 0 := by
        rw [hacc_none] at hbudget
        rw [show (if (none : Option String).isSome = true then 1 else 0)
          = 0 from rfl] at hbudget
        omega
      rw [add_node_start acc p.2 hstart hacc_none, exceptOkBind, hset]
      obtain ⟨s, e, hfold⟩ := ih
        { acc with nodes := acc.nodes ++ [p], start_node := some p.2.id }
        (fun q hq => hids q (List.mem_cons_of_mem p hq))
        hfreshRest hnodup.2 (by simp [hrest0])
      refine ⟨s, e, ?_⟩
      rw [hfold]
      simp
    · have hfilter :
          ((p :: rest).filter
            (fun q => decide (q.2.type = NodeType.START))).length
            = ((rest).filter
              (fun q => decide (q.2.type = NodeType.START))).length := by
        simp [List.filter_cons, hstart]
      rw [hfilter] at hbudget
      by_cases hend : p.2.type = NodeType.END
      · rw [add_node_endnode acc p.2 hstart hend, exceptOkBind, hset]
        obtain ⟨s, e, hfold⟩ := ih
          { acc with
            nodes := acc.nodes ++ [p]
            end_nodes := pyInsert p.2.id acc.end_nodes }
          (fun q hq => hids q (List.mem_cons_of_mem p hq))
          hfreshRest hnodup.2 (by simpa using hbudget)
        refine ⟨s, e, ?_⟩
        rw [hfold]
        simp
      · rw [add_node_plain acc p.2 hstart hend, exceptOkBind, hset]
        obtain ⟨s, e, hfold⟩ := ih
          { acc with nodes := acc.nodes ++ [p] }
          (fun q hq => hids q (List.mem_cons_of_mem p hq))
          hfreshRest hnodup.2 (by simpa using hbudget)
        refine ⟨s, e, ?_⟩
        rw [hfold]
        simp

theorem foldAddEdges (l : List WorkflowEdge) :
    ∀ acc : WorkflowGraph,
      (∀ e ∈ l, e.source_node ∈ acc.keys ∧ e.target_node ∈ acc.keys) →
      l.foldlM WorkflowGraph.add_edge acc =
        Except.ok { acc with edges := acc.edges ++ l } := by
  induction l with
  | nil =>
    intro acc _
    simp only [List.foldlM_nil, exceptPureEq, List.append_nil]
  | cons e rest ih =>
    intro acc hmem
    have h1 := hmem e (List.mem_cons_self e rest)
    rw [List.foldlM_cons]
    rw [show acc.add_edge e =
      Except.ok { acc with edges := acc.edges ++ [e] } from by
        simp [WorkflowGraph.add_edge, h1.1, h1.2]]
    rw [exceptOkBind]
    rw [ih { acc with edges := acc.edges ++ [e] }
      (fun e1 he1 => hmem e1 (List.mem_cons_of_mem e he1))]
    simp

/-- C9: from_dict of to_dict reproduces the graph exactly - same node map,
same edge list with sources, targets, conditions and metadata, same
start_node and same end_nodes - except that every condition_func is dropped
(None after the round trip).  The hypotheses are the representation
invariants every WorkflowGraph built through the class API satisfies: nodes
are keyed by their own id, keys are unique, at most one node has type START,
and every edge endpoint names a node. -/
theorem C9_round_trip :
    ∀ g : WorkflowGraph,
      (∀ p ∈ g.nodes, p.2.id = p.1) →
      (g.nodes.map Prod.fst).Nodup →
      (g.nodes.filter (fun p => p.2.type = NodeType.START)).length ≤ 1 →
      (∀ e ∈ g.edges, e.source_node ∈ g.keys ∧ e.target_node ∈ g.keys) →
      WorkflowGraph.from_dict g.to_dict = Except.ok
        { g with
          edges := g.edges.map (fun e => { e with condition_func := none }) } := by
  intro g hids hnodup hstart hedges
  obtain ⟨s, e, hnodes⟩ := foldAddNodes g.nodes
    { name := g.name, description := g.description } hids
    (by intro p _; simp) hnodup
    (by
      rw [show (if (none : Option String).isSome = true then 1 else 0)
        = 0 from rfl]
      simpa using hstart)
  have hedgefold := foldAddEdges
    (g.edges.map (fun e1 => { e1 with condition_func := none }))
    { name := g.name
      description := g.description
      nodes := [] ++ g.nodes
      edges := []
      start_node := s
      end_nodes := e }
    (by
      intro e1 he1
      obtain ⟨e0, he0, rfl⟩ := List.mem_map.mp he1
      exact hedges e0 he0)
  simp only [WorkflowGraph.from_dict, WorkflowGraph.to_dict,
    foldlM_except_map]
  rw [show (fun (gg : WorkflowGraph) (p : String × WorkflowNode) =>
      gg.add_node
        { id := p.2.id
          type := p.2.type
          name := p.2.name
          config := p.2.config
          metadata := p.2.metadata }) =
    (fun (gg : WorkflowGraph) (p : String × WorkflowNode) =>
      gg.add_node p.2) from rfl]
  rw [hnodes, exceptOkBind]
  rw [show (fun (gg : WorkflowGraph) (e1 : WorkflowEdge) =>
      gg.add_edge
        { source_node := e1.source_node
          target_node := e1.target_node
          condition := e1.condition
          condition_func := none
          metadata := e1.metadata }) =
    (fun (gg : WorkflowGraph) (e1 : WorkflowEdge) =>
      gg.add_edge { e1 with condition_func := none }) from rfl]
  rw [← foldlM_except_map (fun e1 => { e1 with condition_func := none })
    WorkflowGraph.add_edge g.edges]
  rw [hedgefold, exceptOkBind]
  simp

/-- Concrete graph with a CUSTOM edge carrying a predicate, used to witness
the round trip. -/
def gRound : WorkflowGraph :=
  { name := "round"
    description := "d"
    nodes := [("s", { id := "s", type := NodeType.START, name := "S" }),
      ("e", { id := "e", type := NodeType.END, name := "E" })]
    edges := [{ source_node := "s"
                target_node := "e"
                condition := EdgeCondition.CUSTOM
                condition_func := some (fun _ => true) }]
    start_node := some "s"
    end_nodes := ["e"] }

/-- C9 witness: the round trip at a concrete two-node graph whose CUSTOM
edge predicate is dropped. -/
theorem C9_round_trip_witness :
    WorkflowGraph.from_dict gRound.to_dict = Except.ok
      { gRound with
        edges := gRound.edges.map (fun e => { e with condition_func := none }) } := by
  exact C9_round_trip gRound (by decide) (by decide) (by decide) (by decide)

theorem unvisitedCount_mono (keys : List String) {v1 v2 : List String}
    (h : v1 ⊆ v2) : unvisitedCount keys v2 ≤ unvisitedCount keys v1 := by
  unfold unvisitedCount
  induction keys with
  | nil => simp
  | cons a ks ih =>
    by_cases h2 : a ∈ v2
    · by_cases h1 : a ∈ v1
      · simpa [List.filter_cons, h1, h2] using ih
      · simp only [List.filter_cons, h1, h2]
        simp only [not_true, not_false_iff, decide_True, decide_False,
          Bool.false_eq_true, if_false, if_true, List.length_cons]
        omega
    · have hv1 : a ∉ v1 := fun hx => h2 (h hx)
      simp only [List.filter_cons, h2, hv1]
      simp only [not_false_iff, decide_True, if_true, List.length_cons]
      omega

theorem unvisitedCount_insert_lt (keys visited : List String) (t : String)
    (hk : t ∈ keys) (hv : t ∉ visited) :
    unvisitedCount keys (pyInsert t visited) < unvisitedCount keys visited := by
  unfold unvisitedCount
  induction keys with
  | nil => cases hk
  | cons a ks ih =>
    by_cases hat : a = t
    · subst hat
      have e1 : a ∈ pyInsert a visited := self_mem_pyInsert a visited
      simp only [List.filter_cons, e1, hv]
      simp only [not_true, not_false_iff, decide_True, decide_False,
        Bool.false_eq_true, if_false, if_true, List.length_cons]
      have hmono := unvisitedCount_mono ks (subset_pyInsert a visited)
      unfold unvisitedCount at hmono
      omega
    · have hsame : (a ∈ pyInsert t visited) ↔ (a ∈ visited) := by
        constructor
        · intro hm
          rcases (mem_pyInsert t a visited).mp hm with h1 | h1
          · exact absurd h1 hat
          · exact h1
        · exact fun hm => (mem_pyInsert t a visited).mpr (Or.inr hm)
      have hk2 : t ∈ ks := by
        rcases List.mem_cons.mp hk with h1 | h1
        · exact absurd h1.symm hat
        · exact h1
      have hlt := ih hk2
      by_cases ha : a ∈ visited
      · simpa [List.filter_cons, ha, hsame.mpr ha] using hlt
      · have ha2 : a ∉ pyInsert t visited := fun hm => ha (hsame.mp hm)
        simp only [List.filter_cons, ha, ha2]
        simp only [not_false_iff, decide_True, if_true, List.length_cons]
        omega

theorem dfsGo_false_spec (edges : List WorkflowEdge) (keys : List String)
    (Hk : ∀ e ∈ edges, e.target_node ∈ keys) :
    ∀ (fuel : Nat) (rest : List WorkflowEdge) (u : String)
      (visited stack v : List String),
      (∀ e ∈ rest, e ∈ edges) →
      (∀ x ∈ stack, x ∈ visited) →
      unvisitedCount keys visited * (edges.length + 1) + rest.length ≤ fuel →
      dfsGo edges fuel rest u visited stack = (false, v) →
      (∀ x ∈ visited, x ∈ v) ∧
      (∀ e ∈ rest, e.source_node = u →
        e.target_node ∈ v ∧ e.target_node ∉ stack) ∧
      (∀ x ∈ v, x ∉ visited → ∀ e ∈ edges, e.source_node = x →
        e.target_node ∈ v ∧ e.target_node ∉ stack) := by
  intro fuel
  induction fuel with
  | zero =>
    intro rest u visited stack v hrest hstack hfuel hrun
    have hrest0 : rest = [] := by
      have h0 := Nat.le_zero.mp hfuel
      have : rest.length = 0 := by omega
      exact List.length_eq_zero.mp this
    subst hrest0
    simp only [dfsGo] at hrun
    have hv : visited = v := ((Prod.mk.injEq _ _ _ _).mp hrun).2
    subst hv
    exact ⟨fun x hx => hx, by simp, fun x hx hnx => absurd hx hnx⟩
  | succ n ih =>
    intro rest u visited stack v hrest hstack hfuel hrun
    cases rest with
    | nil =>
      simp only [dfsGo] at hrun
      have hv : visited = v := ((Prod.mk.injEq _ _ _ _).mp hrun).2
      subst hv
      exact ⟨fun x hx => hx, by simp, fun x hx hnx => absurd hx hnx⟩
    | cons e rest' =>
      simp only [dfsGo] at hrun
      have heE : e ∈ edges := hrest e (List.mem_cons_self e rest')
      have hrest'E : ∀ e1 ∈ rest', e1 ∈ edges :=
        fun e1 h1 => hrest e1 (List.mem_cons_of_mem e h1)
      have hlen : unvisitedCount keys visited * (edges.length + 1) +
          rest'.length ≤ n := by
        simp only [List.length_cons] at hfuel
        exact Nat.succ_le_succ_iff.mp hfuel
      by_cases hsrc : e.source_node = u
      · rw [if_pos hsrc] at hrun
        by_cases hvis : e.target_node ∈ visited
        · rw [if_neg (fun hcon => hcon hvis)] at hrun
          by_cases hstk : e.target_node ∈ stack
          · rw [if_pos hstk] at hrun
            exact absurd hrun (by simp)
          · rw [if_neg hstk] at hrun
            obtain ⟨ha, hb, hc⟩ := ih rest' u visited stack v hrest'E hstack
              hlen hrun
            refine ⟨ha, ?_, hc⟩
            intro e1 he1 hs1
            rcases List.mem_cons.mp he1 with rfl | h1
            · exact ⟨ha _ hvis, hstk⟩
            · exact hb e1 h1 hs1
        · rw [if_pos hvis] at hrun
          cases hr : dfsGo edges n edges e.target_node
              (pyInsert e.target_node visited)
              (pyInsert e.target_node stack) with
          | mk b1 v1 =>
          simp only [hr] at hrun
          cases b1 with
          | true => simp at hrun
          | false =>
            simp only [if_neg (by simp : ¬ (false = true))] at hrun
            have hkt : e.target_node ∈ keys := Hk e heE
            have hdec := unvisitedCount_insert_lt keys visited
              e.target_node hkt hvis
            have hmul : (unvisitedCount keys
                  (pyInsert e.target_node visited) + 1) * (edges.length + 1)
                ≤ unvisitedCount keys visited * (edges.length + 1) :=
              Nat.mul_le_mul_right _ hdec
            have hnestedFuel : unvisitedCount keys
                (pyInsert e.target_node visited) * (edges.length + 1) +
                edges.length ≤ n := by
              rw [Nat.succ_mul] at hmul
              omega
            obtain ⟨hA1, hB1, hC1⟩ := ih edges e.target_node
              (pyInsert e.target_node visited) (pyInsert e.target_node stack)
              v1 (fun e1 h1 => h1)
              (by
                intro x hx
                rcases (mem_pyInsert _ _ _).mp hx with rfl | hx1
                · exact self_mem_pyInsert _ _
                · exact subset_pyInsert _ _ (hstack x hx1))
              hnestedFuel hr
            have hvisSub : visited ⊆ v1 :=
              fun x hx => hA1 x (subset_pyInsert _ _ hx)
            have hmono2 := unvisitedCount_mono keys hvisSub
            have hmul2 : unvisitedCount keys v1 * (edges.length + 1) ≤
                unvisitedCount keys visited * (edges.length + 1) :=
              Nat.mul_le_mul_right _ hmono2
            have hcontFuel : unvisitedCount keys v1 * (edges.length + 1) +
                rest'.length ≤ n := by omega
            obtain ⟨hA2, hB2, hC2⟩ := ih rest' u v1 stack v hrest'E
              (fun x hx => hvisSub (hstack x hx)) hcontFuel hrun
            refine ⟨fun x hx => hA2 x (hvisSub hx), ?_, ?_⟩
            · intro e1 he1 hs1
              rcases List.mem_cons.mp he1 with rfl | h1
              · exact ⟨hA2 _ (hA1 _ (self_mem_pyInsert _ _)),
                  fun hmem => hvis (hstack _ hmem)⟩
              · exact hB2 e1 h1 hs1
            · intro x hx hnx e1 he1 hs1
              by_cases hxv1 : x ∈ v1
              · by_cases hxt : x = e.target_node
                · subst hxt
                  have hres := hB1 e1 he1 hs1
                  exact ⟨hA2 _ hres.1,
                    fun hmem => hres.2 (subset_pyInsert _ _ hmem)⟩
                · have hxnotins : x ∉ pyInsert e.target_node visited := by
                    intro hmem
                    rcases (mem_pyInsert _ _ _).mp hmem with rfl | hmem2
                    · exact hxt rfl
                    · exact hnx hmem2
                  have hres := hC1 x hxv1 hxnotins e1 he1 hs1
                  exact ⟨hA2 _ hres.1,
                    fun hmem => hres.2 (subset_pyInsert _ _ hmem)⟩
              · exact hC2 x hx hxv1 e1 he1 hs1
      · rw [if_neg hsrc] at hrun
        obtain ⟨ha, hb, hc⟩ := ih rest' u visited stack v hrest'E hstack
          hlen hrun
        refine ⟨ha, ?_, hc⟩
        intro e1 he1 hs1
        rcases List.mem_cons.mp he1 with rfl | h1
        · exact absurd hs1 hsrc
        · exact hb e1 h1 hs1

theorem boolAndSplit {a b : Bool} (h : (a && b) = true) :
    a = true ∧ b = true := by
  simp only [Bool.and_eq_true] at h
  exact h

theorem getLast?_mem_list : ∀ (l : List α) (a : α), l.getLast? = some a → a ∈ l := by
  intro l
  induction l with
  | nil => intro a h; cases h
  | cons b rest ih =>
    intro a h
    cases rest with
    | nil =>
      simp only [List.getLast?_singleton, Option.some.injEq] at h
      subst h
      exact List.mem_singleton_self b
    | cons c rest2 =>
      rw [List.getLast?_cons_cons] at h
      exact List.mem_cons_of_mem b (ih a h)

theorem chain_cons_iff (edges : List WorkflowEdge) (a b : String)
    (p : List String) :
    chainFromB edges a (b :: p) = true ↔
      (∃ e ∈ edges, e.source_node = a ∧ e.target_node = b) ∧
        chainFromB edges b p = true := by
  simp [chainFromB]

theorem chainFromB_snoc (edges : List WorkflowEdge) :
    ∀ (p : List String) (a b c : String),
      chainFromB edges a p = true → p.getLast? = some b →
      (∃ e ∈ edges, e.source_node = b ∧ e.target_node = c) →
      chainFromB edges a (p ++ [c]) = true := by
  intro p
  induction p with
  | nil => intro a b c _ hlast _; cases hlast
  | cons x p' ih =>
    intro a b c hch hlast hedge
    obtain ⟨h1, h2⟩ := (chain_cons_iff edges a x p').mp hch
    cases p' with
    | nil =>
      have hx : x = b := by simpa using hlast
      subst hx
      exact (chain_cons_iff edges a x [c]).mpr
        ⟨h1, (chain_cons_iff edges x c []).mpr ⟨hedge, rfl⟩⟩
    | cons y p'' =>
      have hlast2 : (y :: p'').getLast? = some b := by
        rw [List.getLast?_cons_cons] at hlast
        exact hlast
      exact (chain_cons_iff edges a x ((y :: p'') ++ [c])).mpr
        ⟨h1, ih x b c h2 hlast2 hedge⟩

theorem chain_targets_mem (edges : List WorkflowEdge) (keys : List String)
    (Hk : ∀ e ∈ edges, e.target_node ∈ keys) :
    ∀ (p : List String) (a : String), chainFromB edges a p = true →
      ∀ x ∈ p, x ∈ keys := by
  intro p
  induction p with
  | nil => intro a _ x hx; cases hx
  | cons b rest ih =>
    intro a hch x hx
    obtain ⟨h1, h2⟩ := (chain_cons_iff edges a b rest).mp hch
    rcases List.mem_cons.mp hx with rfl | hx2
    · obtain ⟨e, he, _, hte⟩ := h1
      exact hte ▸ Hk e he
    · exact ih b h2 x hx2

theorem ReachB_step (edges : List WorkflowEdge) (s b : String)
    (hr : ReachB edges s b) (e : WorkflowEdge) (he : e ∈ edges)
    (hs : e.source_node = b) : ReachB edges s e.target_node := by
  have hedge : ∃ e1 ∈ edges, e1.source_node = b ∧
      e1.target_node = e.target_node := ⟨e, he, hs, rfl⟩
  rcases hr with rfl | ⟨p, hne, hch, hlast⟩
  · refine Or.inr ⟨[e.target_node], by simp, ?_, by simp⟩
    exact (chain_cons_iff edges b e.target_node []).mpr ⟨hedge, rfl⟩
  · refine Or.inr ⟨p ++ [e.target_node], by simp, ?_, by simp⟩
    exact chainFromB_snoc edges p s b e.target_node hch hlast hedge

theorem hasCycle_detected (g : WorkflowGraph)
    (Hk : ∀ e ∈ g.edges, e.target_node ∈ g.keys)
    (hcyc : HasCycle g.edges) : ∃ k ∈ g.keys, g.hasCycleFrom k = true := by
  obtain ⟨a, p, hne, hch, hlast⟩ := hcyc
  have hamem : a ∈ g.keys :=
    chain_targets_mem g.edges g.keys Hk p a hch a (getLast?_mem_list p a hlast)
  refine ⟨a, hamem, ?_⟩
  unfold WorkflowGraph.hasCycleFrom
  cases hr : dfsGo g.edges g.cycleFuel g.edges a (pyInsert a [])
      (pyInsert a []) with
  | mk b1 v =>
  cases b1 with
  | true => rfl
  | false =>
    exfalso
    have hfuelBound : unvisitedCount g.keys (pyInsert a []) *
        (g.edges.length + 1) + g.edges.length ≤ g.cycleFuel := by
      have h1 : unvisitedCount g.keys (pyInsert a []) ≤ g.keys.length := by
        unfold unvisitedCount
        exact List.length_filter_le _ _
      have h2 : g.keys.length = g.nodes.length := by
        simp [WorkflowGraph.keys]
      have h3 : unvisitedCount g.keys (pyInsert a []) *
          (g.edges.length + 1) ≤ g.nodes.length * (g.edges.length + 1) :=
        Nat.mul_le_mul_right _ (h2 ▸ h1)
      have h4 : g.cycleFuel = g.nodes.length * (g.edges.length + 1) +
          (g.edges.length + 1) := by
        unfold WorkflowGraph.cycleFuel
        ring
      omega
    obtain ⟨hA, hB, hC⟩ := dfsGo_false_spec g.edges g.keys Hk g.cycleFuel
      g.edges a (pyInsert a []) (pyInsert a []) v (fun e he => he)
      (fun x hx => hx) hfuelBound hr
    have hav : a ∈ v := hA a (self_mem_pyInsert a [])
    have hCL : ∀ x ∈ v, ∀ e ∈ g.edges, e.source_node = x →
        e.target_node ∈ v ∧ e.target_node ≠ a := by
      intro x hx e he hs
      by_cases hxa : x = a
      · subst hxa
        have hres := hB e he hs
        refine ⟨hres.1, fun hc => hres.2 ?_⟩
        rw [hc]
        exact self_mem_pyInsert x []
      · have hxnot : x ∉ pyInsert a [] := by
          intro hm
          rcases (mem_pyInsert _ _ _).mp hm with rfl | hm2
          · exact hxa rfl
          · cases hm2
        have hres := hC x hx hxnot e he hs
        refine ⟨hres.1, fun hc => hres.2 ?_⟩
        rw [hc]
        exact self_mem_pyInsert a []
    have walk : ∀ (q : List String), ∀ x : String, x ∈ v →
        chainFromB g.edges x q = true → q.getLast? = some a → q ≠ [] →
        False := by
      intro q
      induction q with
      | nil => intro x _ _ _ hq; exact hq rfl
      | cons b rest ihq =>
        intro x hx hch2 hlast2 _
        obtain ⟨h1, h2⟩ := (chain_cons_iff g.edges x b rest).mp hch2
        obtain ⟨e, he, hse, hte⟩ := h1
        have hbv : b ∈ v ∧ b ≠ a := by
          have hres := hCL x hx e he hse
          rw [hte] at hres
          exact hres
        cases rest with
        | nil =>
          have hba : b = a := by simpa using hlast2
          exact hbv.2 hba
        | cons c rest2 =>
          have hlast3 : (c :: rest2).getLast? = some a := by
            rw [List.getLast?_cons_cons] at hlast2
            exact hlast2
          exact ihq b hbv.1 h2 hlast3 (by simp)
    exact walk p a hav hch hlast hne

theorem mem_bfs_fold (edges : List WorkflowEdge) (c : Option String)
    (reach1 : List (Option String)) :
    ∀ (acc : List (Option String)) (y : Option String),
      y ∈ edges.foldl (fun acc2 e =>
        if some e.source_node = c ∧ some e.target_node ∉ reach1 then
          pyInsert (some e.target_node) acc2
        else acc2) acc →
      y ∈ acc ∨ ∃ e ∈ edges, some e.source_node = c ∧
        y = some e.target_node := by
  induction edges with
  | nil => intro acc y hy; exact Or.inl hy
  | cons e rest ih =>
    intro acc y hy
    simp only [List.foldl_cons] at hy
    rcases ih _ y hy with h | ⟨e1, he1, hc1, hy1⟩
    · by_cases hP : some e.source_node = c ∧ some e.target_node ∉ reach1
      · rw [if_pos hP] at h
        rcases (mem_pyInsert _ _ _).mp h with rfl | h2
        · exact Or.inr ⟨e, List.mem_cons_self e rest, hP.1, rfl⟩
        · exact Or.inl h2
      · rw [if_neg hP] at h
        exact Or.inl h
    · exact Or.inr ⟨e1, List.mem_cons_of_mem e he1, hc1, hy1⟩

theorem bfsGo_sound (edges : List WorkflowEdge) (s : String) :
    ∀ (fuel : Nat) (toCheck reach : List (Option String)),
      (∀ x ∈ toCheck, ∃ k, x = some k ∧ ReachB edges s k) →
      (∀ x ∈ reach, ∃ k, x = some k ∧ ReachB edges s k) →
      ∀ x ∈ bfsGo edges fuel toCheck reach,
        ∃ k, x = some k ∧ ReachB edges s k := by
  intro fuel
  induction fuel with
  | zero =>
    intro toCheck reach _ h2 x hx
    simp only [bfsGo] at hx
    exact h2 x hx
  | succ n ih =>
    intro toCheck reach h1 h2 x hx
    cases toCheck with
    | nil =>
      simp only [bfsGo] at hx
      exact h2 x hx
    | cons c rest =>
      simp only [bfsGo] at hx
      refine ih _ _ ?_ ?_ x hx
      · intro y hy
        rcases mem_bfs_fold edges c (pyInsert c reach) rest y hy with
          h | ⟨e, he, hsrc, rfl⟩
        · exact h1 y (List.mem_cons_of_mem c h)
        · obtain ⟨k0, hck, hrk⟩ := h1 c (List.mem_cons_self c rest)
          have hsk : e.source_node = k0 := by
            rw [hck] at hsrc
            exact Option.some.inj hsrc
          exact ⟨e.target_node, rfl, ReachB_step edges s k0 hrk e he hsk⟩
      · intro y hy
        rcases (mem_pyInsert _ _ _).mp hy with rfl | hy2
        · exact h1 y (List.mem_cons_self y rest)
        · exact h2 y hy2

theorem bfsReach_sound (g : WorkflowGraph) (s : String)
    (hs : g.start_node = some s) :
    ∀ x ∈ g.bfsReach, ∃ k, x = some k ∧ ReachB g.edges s k := by
  intro x hx
  unfold WorkflowGraph.bfsReach at hx
  rw [hs] at hx
  refine bfsGo_sound g.edges s _ [some s] [] ?_ ?_ x hx
  · intro y hy
    have : y = some s := by simpa using hy
    exact ⟨s, this, Or.inl rfl⟩
  · intro y hy
    cases hy

/-- C2: every workflow graph that is missing its START node, has zero END
nodes, contains a node unreachable from START, or contains a directed cycle
fails validate() with a non-empty error list, and execute_workflow on such a
graph raises the Invalid-workflow ValueError before any node handler runs:
the returned error is the same for every handler function, so no handler is
consulted and no result is stored.  The edge-endpoint hypothesis is the
invariant add_edge enforces. -/
theorem C2_validate_blocks_bad_graphs :
    ∀ g : WorkflowGraph,
      (∀ e ∈ g.edges, e.source_node ∈ g.keys ∧ e.target_node ∈ g.keys) →
      (g.start_node = none ∨ g.end_nodes = [] ∨
        (∃ k ∈ g.keys, ¬ ∃ s, g.start_node = some s ∧ ReachB g.edges s k) ∨
        HasCycle g.edges) →
      g.validate ≠ [] ∧
      ∀ (proc : WorkflowNode → ExecState → Except String Val)
        (ctx : List (String × Val)),
        executeWorkflow proc g ctx = Except.error
          ("Invalid workflow: " ++ String.intercalate ", " g.validate) := by
  intro g hends hbad
  have hvne : g.validate ≠ [] := by
    intro hnil
    simp only [WorkflowGraph.validate] at hnil
    rw [List.append_assoc, List.append_assoc] at hnil
    obtain ⟨h1, h234⟩ := List.append_eq_nil.mp hnil
    obtain ⟨h2, h34⟩ := List.append_eq_nil.mp h234
    obtain ⟨h3, h4⟩ := List.append_eq_nil.mp h34
    rcases hbad with hstart | hend | ⟨k, hk, hnr⟩ | hcyc
    · rw [hstart] at h1
      simp at h1
    · rw [hend] at h2
      simp at h2
    · cases hs : g.start_node with
      | none =>
        rw [hs] at h1
        simp at h1
      | some s =>
        by_cases hemp :
            (g.keys.filter (fun k1 => some k1 ∉ g.bfsReach)).isEmpty
        · have hfilnil : g.keys.filter (fun k1 => some k1 ∉ g.bfsReach) = [] :=
            List.isEmpty_iff.mp hemp
          have hall := List.filter_eq_nil_iff.mp hfilnil k hk
          have hkreach : some k ∈ g.bfsReach := by simpa using hall
          obtain ⟨k1, hk1, hr1⟩ := bfsReach_sound g s hs (some k) hkreach
          have : k = k1 := Option.some.inj hk1
          subst this
          exact hnr ⟨s, hs, hr1⟩
        · rw [if_neg hemp] at h3
          cases h3
    · have Hk : ∀ e ∈ g.edges, e.target_node ∈ g.keys :=
        fun e he => (hends e he).2
      obtain ⟨k, hk, hck⟩ := hasCycle_detected g Hk hcyc
      cases hf : g.keys.find? (fun k1 => g.hasCycleFrom k1) with
      | none =>
        have := List.find?_eq_none.mp hf k hk
        exact this hck
      | some k1 =>
        rw [hf] at h4
        cases h4
  refine ⟨hvne, ?_⟩
  intro proc ctx
  have hfalse : g.validate.isEmpty = false := by
    cases hval : g.validate with
    | nil => exact absurd hval hvne
    | cons x rest => rfl
  simp only [executeWorkflow, hfalse, Bool.false_eq_true, if_false]

/-- Concrete graph with a reachable two-node cycle a - b - a. -/
def gCyc : WorkflowGraph :=
  { name := "cyc"
    nodes := [("start", { id := "start", type := NodeType.START, name := "S" }),
      ("a", { id := "a", type := NodeType.MERGE, name := "a" }),
      ("b", { id := "b", type := NodeType.MERGE, name := "b" }),
      ("end", { id := "end", type := NodeType.END, name := "E" })]
    edges := [{ source_node := "start", target_node := "a" },
      { source_node := "a", target_node := "b" },
      { source_node := "b", target_node := "a" },
      { source_node := "a", target_node := "end" }]
    start_node := some "start"
    end_nodes := ["end"] }

/-- C2 witness: the concrete cyclic graph fails validate and
execute_workflow refuses to run it regardless of the node handler. -/
theorem C2_validate_blocks_bad_graphs_witness :
    gCyc.validate ≠ [] ∧
    executeWorkflow procBasic gCyc [] = Except.error
      ("Invalid workflow: " ++ String.intercalate ", " gCyc.validate) := by
  have h := C2_validate_blocks_bad_graphs gCyc (by decide)
    (Or.inr (Or.inr (Or.inr ⟨"a", ["b", "a"], by simp, by decide, rfl⟩)))
  exact ⟨h.1, h.2 procBasic []⟩
